import Mathlib

/-!
# Verification of the `eml` message parser

Shallow embedding of the Go sources `message.go` and `multipart.go` of the
`go-eml` repository, together with models of the Go standard-library
functions they call (`encoding/base64`, `mime`, `mime/multipart`,
`mime/quotedprintable`, `net/mail`, `net/textproto`, `strings`, `regexp`
patterns used) and, where a collaborator of the repository is not part of
the given sources (lexer, mailbox parser, RFC 2047 decoder, charset
transcoder, date parser), a model built from the specification's contract
for it.

Byte strings are modelled as `List Char` (all inputs of interest are
ASCII); Go's `map[string][]string` is modelled as an ordered association
list; Go panics (out-of-range indexing) are modelled by `Option`.
-/

namespace Eml

/-- Byte strings (`[]byte` / `string` in Go). -/
abbrev Bytes := List Char

/-- Go `map[string][]string`, as an association list keyed by header name. -/
abbrev HMap := List (Bytes × List Bytes)

/-- Look a key up in an `HMap`; Go's `m[k]` returns the zero value (empty
slice) for a missing key. -/
def mapGet (m : HMap) (k : Bytes) : List Bytes :=
  match m with
  | [] => []
  | (k', v) :: rest => if k' = k then v else mapGet rest k

/-- Go's `_, ok := m[k]` presence test. -/
def mapHasKey (m : HMap) (k : Bytes) : Bool :=
  match m with
  | [] => false
  | (k', _) :: rest => if k' = k then true else mapHasKey rest k

/-- Go's `m[k] = v`: replace the value when the key exists, insert otherwise. -/
def mapSet (m : HMap) (k : Bytes) (v : List Bytes) : HMap :=
  match m with
  | [] => [(k, v)]
  | (k', v') :: rest => if k' = k then (k, v) :: rest else (k', v') :: mapSet rest k v

/-- Go's `m[k] = append(m[k], v)` on a `map[string][]string`. -/
def mapAppendVal (m : HMap) (k : Bytes) (v : Bytes) : HMap :=
  mapSet m k (mapGet m k ++ [v])

/-- ASCII lower-casing of one character (`strings.ToLower`, ASCII range). -/
def lowerChar (c : Char) : Char :=
  if 'A' ≤ c ∧ c ≤ 'Z' then Char.ofNat (c.toNat + 32) else c

/-- ASCII upper-casing of one character. -/
def upperChar (c : Char) : Char :=
  if 'a' ≤ c ∧ c ≤ 'z' then Char.ofNat (c.toNat - 32) else c

/-- `strings.ToLower` (ASCII). -/
def toLowerB (s : Bytes) : Bytes := s.map lowerChar

/-- Go whitespace class used by `strings.TrimSpace` / `strings.Fields`
(ASCII subset). -/
def isSpaceB (c : Char) : Bool :=
  c = ' ' ∨ c = '\t' ∨ c = '\n' ∨ c = '\r' ∨ c = '\x0b' ∨ c = '\x0c'

/-- `strings.TrimSpace` (ASCII). -/
def trimSpaceB (s : Bytes) : Bytes :=
  ((s.dropWhile isSpaceB).reverse.dropWhile isSpaceB).reverse

/-- `strings.Trim(s, cutset)`: trim any of the characters of `cut` from
both ends. -/
def trimSetB (s : Bytes) (cut : Bytes) : Bytes :=
  ((s.dropWhile (cut.contains ·)).reverse.dropWhile (cut.contains ·)).reverse

/-- `strings.TrimSuffix`. -/
def trimSuffixB (s suf : Bytes) : Bytes :=
  if suf.isSuffixOf s then s.take (s.length - suf.length) else s

/-- `strings.Contains` on byte strings. -/
def hasSub (h n : Bytes) : Bool :=
  match h with
  | [] => n = []
  | _ :: t => n.isPrefixOf h || hasSub t n

/-- Worker for `fieldsB`, accumulating the current word (reversed). -/
def fieldsAux : Bytes → Bytes → List Bytes
  | [], cur => if cur = [] then [] else [cur.reverse]
  | c :: t, cur =>
    if isSpaceB c then
      if cur = [] then fieldsAux t [] else cur.reverse :: fieldsAux t []
    else fieldsAux t (c :: cur)

/-- `strings.Fields`: split around runs of whitespace. -/
def fieldsB (s : Bytes) : List Bytes := fieldsAux s []

/-- Split a byte string on a single separator character (used to model the
`;`-splitting of `mime.ParseMediaType` parameters and `strings.Split` on
`","`). Splitting the empty string yields one empty chunk, as in Go. -/
def splitOnCharB (sep : Char) (s : Bytes) : List Bytes :=
  match s with
  | [] => [[]]
  | c :: t =>
    let r := splitOnCharB sep t
    if c = sep then [] :: r
    else
      match r with
      | [] => [[c]]
      | h :: t' => (c :: h) :: t'

/-- Join byte strings with a separator character (inverse of line
splitting). -/
def joinWithChar (sep : Char) : List Bytes → Bytes
  | [] => []
  | [l] => l
  | l :: ls => l ++ sep :: joinWithChar sep ls

/-- Split into lines on `'\n'` (any `'\r'` stays attached to its line and is
handled by the consumers, matching the byte-level behaviour of the Go
readers on both LF and CRLF input). -/
def linesOf (s : Bytes) : List Bytes := splitOnCharB '\n' s

/-- `textproto.CanonicalMIMEHeaderKey`: upper-case the first letter and every
letter following a `-`, lower-case the rest. -/
def canonKey (s : Bytes) : Bytes :=
  match s with
  | [] => []
  | c :: t => upperChar c :: canonAfter t
where
  /-- Tail of the canonicalization: lower-case except right after a dash. -/
  canonAfter : Bytes → Bytes
    | [] => []
    | '-' :: t => '-' :: (match t with
        | [] => []
        | c :: t' => upperChar c :: canonAfter t')
    | c :: t => lowerChar c :: canonAfter t

/-! ## `encoding/base64` (StdEncoding) -/

/-- `base64.StdEncoding.decodeMap`: the six-bit value of an alphabet
character, `none` otherwise. -/
def b64val (c : Char) : Option Nat :=
  if 'A' ≤ c ∧ c ≤ 'Z' then some (c.toNat - 65)
  else if 'a' ≤ c ∧ c ≤ 'z' then some (c.toNat - 97 + 26)
  else if '0' ≤ c ∧ c ≤ '9' then some (c.toNat - 48 + 52)
  else if c = '+' then some 62
  else if c = '/' then some 63
  else none

/-- Assemble the output bytes of one quantum from its 2, 3 or 4 six-bit
values (`dlen` 2, 3 and 4 in the Go decoder yield 1, 2 and 3 bytes). -/
def b64emit (vals : List Nat) : Bytes :=
  match vals with
  | [a, b] => [Char.ofNat ((a * 4 + b / 16) % 256)]
  | [a, b, c] => [Char.ofNat ((a * 4 + b / 16) % 256), Char.ofNat ((b * 16 + c / 4) % 256)]
  | [a, b, c, d] => [Char.ofNat ((a * 4 + b / 16) % 256), Char.ofNat ((b * 16 + c / 4) % 256),
      Char.ofNat ((c * 64 + d) % 256)]
  | _ => []

/-- Skip `\n`/`\r`, tracking the input byte index (the Go decoder ignores
newline characters anywhere). -/
def skipNl : Bytes → Nat → (Bytes × Nat)
  | [], si => ([], si)
  | c :: t, si => if c = '\n' ∨ c = '\r' then skipNl t (si + 1) else (c :: t, si)

/-- One quantum of `base64.Encoding.decodeQuantum` with required padding
(StdEncoding). Arguments: remaining input, current byte index, six-bit
values read so far in this quantum. Returns
`(output bytes, remaining input, next index, error position, stop)` where
the error position models `CorruptInputError` and `stop` means decoding
ends after this quantum (end of input, padding, or error). -/
def b64quantum : Bytes → Nat → List Nat → (Bytes × Bytes × Nat × Option Nat × Bool)
  | [], si, vals =>
    if vals.length = 0 then ([], [], si, none, true)
    else ([], [], si, some (si - vals.length), true)
  | c :: t, si, vals =>
    if c = '\n' ∨ c = '\r' then b64quantum t (si + 1) vals
    else
      match b64val c with
      | some v =>
        if vals.length = 3 then (b64emit (vals ++ [v]), t, si + 1, none, false)
        else b64quantum t (si + 1) (vals ++ [v])
      | none =>
        if c = '=' then
          match vals with
          | [a, b] =>
            -- `=` after two values: a second `=` must follow (modulo newlines)
            let (t1, si1) := skipNl t (si + 1)
            match t1 with
            | [] => ([], [], si1, some si1, true)
            | c2 :: t2 =>
              if c2 = '=' then
                let (t3, si3) := skipNl t2 (si1 + 1)
                match t3 with
                | [] => (b64emit [a, b], [], si3, none, true)
                | _ => (b64emit [a, b], t3, si3, some si3, true)
              else ([], t1, si1, some (si1 - 1), true)
          | [a, b, c3] =>
            -- `=` after three values: quantum is complete; anything further
            -- (modulo newlines) is trailing garbage
            let (t3, si3) := skipNl t (si + 1)
            match t3 with
            | [] => (b64emit [a, b, c3], [], si3, none, true)
            | _ => (b64emit [a, b, c3], t3, si3, some si3, true)
          | _ => ([], t, si + 1, some si, true)
        else ([], t, si + 1, some si, true)

/-- Quantum loop of `base64.Encoding.Decode`. The fuel is bounced once per
quantum; a quantum consumes at least one input byte, so fuel
`input length + 1` never runs out. -/
def b64loopF : Nat → Bytes → Nat → Bytes → (Bytes × Option Nat)
  | 0, _, si, acc => (acc, some si)
  | _ + 1, [], _, acc => (acc, none)
  | fuel + 1, c :: t, si, acc =>
    let (out, rest, si', errAt, stop) := b64quantum (c :: t) si []
    if stop then (acc ++ out, errAt)
    else b64loopF fuel rest si' (acc ++ out)

/-- `base64.StdEncoding.DecodeString`: the decoded bytes (the successfully
decoded prefix when the input is invalid) and the `CorruptInputError`
position, if any. -/
def b64decode (s : Bytes) : Bytes × Option Nat := b64loopF (s.length + 1) s 0 []

/-! ## `mime/quotedprintable` -/

/-- Hex digit value accepted by the quoted-printable reader. -/
def hexVal (c : Char) : Option Nat :=
  if '0' ≤ c ∧ c ≤ '9' then some (c.toNat - 48)
  else if 'A' ≤ c ∧ c ≤ 'F' then some (c.toNat - 55)
  else if 'a' ≤ c ∧ c ≤ 'f' then some (c.toNat - 87)
  else none

/-- Trailing space/tab removal before a hard line break. -/
def dropTrailingWsp (s : Bytes) : Bytes :=
  (s.reverse.dropWhile (fun c => c = ' ' ∨ c = '\t')).reverse

/-- `quotedprintable.NewReader` followed by `io.ReadAll` with the error
discarded, as `decodeContentTransferEncoding` does: a decode error stops
reading and the best-effort prefix read so far is kept. -/
def qpDecode : Bytes → Bytes
  | [] => []
  | '=' :: rest =>
    match rest with
    | '\n' :: t => qpDecode t
    | '\r' :: '\n' :: t => qpDecode t
    | a :: b :: t =>
      match hexVal a, hexVal b with
      | some x, some y => Char.ofNat (16 * x + y) :: qpDecode t
      | _, _ => []
    | _ => []
  | '\n' :: rest => '\n' :: qpDecode rest
  | c :: rest => c :: qpDecode rest

/-! ## `mime.ParseMediaType` -/

/-- Go `mime` token characters (printable ASCII outside tspecials). -/
def isTokenChar (c : Char) : Bool :=
  32 < c.toNat ∧ c.toNat < 127 ∧ ¬ ("()<>@,;:\\\"/[]?=".toList.contains c)

/-- A parameter value: a quoted string loses its quotes and backslash
escapes, a bare token is taken up to trailing whitespace. -/
def paramValue (v : Bytes) : Bytes :=
  match v with
  | '"' :: t => unquoteRun t
  | _ => trimSpaceB v
where
  /-- Consume a quoted value body up to the closing quote, resolving
  backslash escapes. -/
  unquoteRun : Bytes → Bytes
    | [] => []
    | '"' :: _ => []
    | '\\' :: c :: t => c :: unquoteRun t
    | c :: t => c :: unquoteRun t

/-- Parameter loop of `mime.ParseMediaType` over the `;`-separated chunks:
lower-cased keys, duplicate keys rejected. -/
def mediaParams : List Bytes → List (Bytes × Bytes) → Except Bytes (List (Bytes × Bytes))
  | [], acc => .ok acc
  | chunk :: rest, acc =>
    let p := trimSpaceB chunk
    if p = [] then .error ("mime: invalid media parameter".toList)
    else
      let key := toLowerB (trimSpaceB (p.takeWhile (· ≠ '=')))
      if ¬ p.contains '=' ∨ key = [] then .error ("mime: invalid media parameter".toList)
      else if (acc.map Prod.fst).contains key then
        .error ("mime: duplicate parameter name".toList)
      else mediaParams rest (acc ++ [(key, paramValue ((p.dropWhile (· ≠ '=')).drop 1))])

/-- `mime.ParseMediaType`: media type (lower-cased, trimmed) and its
parameter map. -/
def parseMediaType (ct : Bytes) : Except Bytes (Bytes × List (Bytes × Bytes)) :=
  match splitOnCharB ';' ct with
  | [] => .error ("mime: no media type".toList)
  | mtRaw :: rest =>
    let mt := toLowerB (trimSpaceB mtRaw)
    if mt = [] then .error ("mime: no media type".toList)
    else if ¬ (mt.all fun c => isTokenChar c ∨ c = '/') then
      .error ("mime: expected token".toList)
    else do
      let ps ← mediaParams rest []
      .ok (mt, ps)

/-- Go's `ps[k]` with presence flag on the parameter map. -/
def paramGet (ps : List (Bytes × Bytes)) (k : Bytes) : Option Bytes :=
  match ps with
  | [] => none
  | (k', v) :: rest => if k' = k then some v else paramGet rest k

/-! ## The two regular expressions of the source -/

/-- `regexp` `(?is)charset=(.*)` applied with `FindStringSubmatch`: the
capture of the leftmost case-insensitive occurrence, spanning to the end of
the string. -/
def charsetCapture : Bytes → Option Bytes
  | [] => none
  | c :: t =>
    if toLowerB ((c :: t).take 8) = "charset=".toList then some ((c :: t).drop 8)
    else charsetCapture t

/-- `regexp` `(?msi)name="(.*?)"` applied with `FindStringSubmatch`: the
lazy capture between `name="` and the next `"` of the leftmost
case-insensitive occurrence that closes its quote. -/
def nameCapture : Bytes → Option Bytes
  | [] => none
  | c :: t =>
    let s := c :: t
    if toLowerB (s.take 6) = "name=\"".toList ∧ (s.drop 6).contains '"' then
      some ((s.drop 6).takeWhile (· ≠ '"'))
    else nameCapture t

/-! ## `net/textproto` / `net/mail` header reading and the
`mime/multipart` reader -/

/-- Strip one trailing `\r` (line endings are split on `\n`, so a CRLF
line keeps its `\r` here). -/
def stripCr (l : Bytes) : Bytes := trimSuffixB l ['\r']

/-- `textproto.Reader.ReadMIMEHeader` over a list of lines: read
`Key: value` lines up to the first blank line, canonicalizing keys and
accumulating repeated keys in order. Returns the header map and the lines
after the blank separator. (Folded continuation lines and the error on a
colon-less line are not modelled; a colon-less line is skipped — no input
considered here contains either.) -/
def readHdrLines : List Bytes → HMap → (HMap × List Bytes)
  | [], acc => (acc, [])
  | l :: rest, acc =>
    let l' := stripCr l
    if l' = [] then (acc, rest)
    else if l'.contains ':' then
      let k := canonKey (l'.takeWhile (· ≠ ':'))
      let v := trimSpaceB ((l'.dropWhile (· ≠ ':')).drop 1)
      readHdrLines rest (mapAppendVal acc k v)
    else readHdrLines rest acc

/-- `mail.ReadMessage(strings.NewReader("\r\n" + string(body))).Header`:
`parseBody` prepends a CRLF before reading, so the header section ends at
once and this is the header map of the empty header block. -/
def mailReadHeaders (body : Bytes) : HMap :=
  (readHdrLines (linesOf ('\r' :: '\n' :: body)) []).fst

/-- Write all entries of `entries` into `m`, as Go's
`for k, v := range entries { m[k] = v }`. -/
def hmapSetAll (entries : HMap) (m : HMap) : HMap :=
  entries.foldl (fun acc kv => mapSet acc kv.1 kv.2) m

/-- A boundary delimiter line `--boundary` followed only by transport
padding (spaces/tabs), as accepted by the `mime/multipart` reader. -/
def isDelimLine (b l : Bytes) : Bool :=
  let l' := stripCr l
  ('-' :: '-' :: b).isPrefixOf l' &&
    (l'.drop (b.length + 2)).all (fun c => c = ' ' ∨ c = '\t')

/-- The closing delimiter line `--boundary--` (plus optional padding). -/
def isCloseLine (b l : Bytes) : Bool :=
  let l' := stripCr l
  ('-' :: '-' :: (b ++ ['-', '-'])).isPrefixOf l' &&
    (l'.drop (b.length + 4)).all (fun c => c = ' ' ∨ c = '\t')

/-- One boundary-delimited segment produced by the multipart reader:
its MIME headers and its raw data. -/
structure Seg where
  headers : HMap
  data : Bytes
deriving DecidableEq, Repr

/-- Collect a part's data lines up to the next delimiter: returns the data
lines, the lines after a (non-final) delimiter, and whether scanning is
finished (closing delimiter or end of input — the final line separator
before a delimiter belongs to the delimiter, not to the data). -/
def collectData (b : Bytes) : List Bytes → (List Bytes × List Bytes × Bool)
  | [] => ([], [], true)
  | l :: rest =>
    if isCloseLine b l then ([], [], true)
    else if isDelimLine b l then ([], rest, false)
    else
      let (d, r, fin) := collectData b rest
      (l :: d, r, fin)

/-- Successive `Reader.NextPart` calls after the first delimiter line:
each part is its MIME header block followed by data lines up to the next
delimiter. The fuel decreases once per part; each part consumes at least
one line, so fuel `line count + 1` never runs out. -/
def readPartsF (b : Bytes) : Nat → List Bytes → List Seg
  | 0, _ => []
  | fuel + 1, ls =>
    let (hdrs, afterH) := readHdrLines ls []
    let (dataLs, rest, fin) := collectData b afterH
    ⟨hdrs, joinWithChar '\n' dataLs⟩ :: (if fin then [] else readPartsF b fuel rest)

/-- `multipart.NewReader(body, boundary)` driven to exhaustion by
`NextPart`: skip the preamble up to the first delimiter line, then read the
segments; an initial closing delimiter, a clean end of input and a missing
further boundary all terminate the scan without error, matching how
`parseBody` treats both EOF conditions as success. -/
def scanSegs (b : Bytes) : List Bytes → List Seg
  | [] => []
  | l :: rest =>
    if isCloseLine b l then []
    else if isDelimLine b l then readPartsF b (rest.length + 1) rest
    else scanSegs b rest

/-- A MIME body part as produced by `parseBody` (`multipart.go`). -/
structure Part where
  Type' : Bytes
  Charset : Bytes
  Data : Bytes
  Headers : HMap
deriving DecidableEq, Repr

/-! ## `parseBody` (`multipart.go`) -/

/-- The raw fallback part that `parseBody` emits for a segment whose
recursive decomposition failed: the segment's first `Content-Type` value
as the type, the `charset=` regex capture from it (defaulting to `UTF-8`
when the pattern does not match) as the charset, the segment's raw data
and its headers. -/
def fallbackPart (ctv : Bytes) (s : Seg) : Part :=
  let charset := match charsetCapture ctv with
    | some c => c
    | none => "UTF-8".toList
  { Type' := ctv, Charset := charset, Data := s.data, Headers := s.headers }

/-- The `NextPart` loop of `parseBody`, abstracted over the recursive call
`rec` (the next level of `parseBody`): a segment without a `Content-Type`
header is skipped — never emitted and producing no error — and the loop
proceeds with the next segment; otherwise recurse on the segment,
flattening the subparts on success and, on failure, emitting the raw
fallback part for the segment and continuing. -/
def segsRunWith (rec : Bytes → Bytes → HMap → Except Bytes (List Part)) :
    List Seg → List Part
  | [] => []
  | s :: rest =>
    (match mapGet s.headers ("Content-Type".toList) with
     | [] => []
     | ctv :: _ =>
       match rec ctv s.data s.headers with
       | .ok subs => subs
       | .error _ => [fallbackPart ctv s])
    ++ segsRunWith rec rest

/-- One level of `parseBody` of `multipart.go`, abstracted over the
recursive call: parse the content type; without a `boundary` parameter
fail for a `multipart` media type and otherwise return the single leaf
part (headers of the CRLF-prefixed body merged below the inherited ones);
with a boundary, scan the segments and run the `NextPart` loop. -/
def parseBodyStep (rec : Bytes → Bytes → HMap → Except Bytes (List Part))
    (ct body : Bytes) (ph : HMap) : Except Bytes (List Part) :=
  match parseMediaType ct with
  | .error e => .error e
  | .ok (mt, ps) =>
    match paramGet ps ("boundary".toList) with
    | none =>
      if ("multipart".toList).isPrefixOf mt then
        .error ("multipart specified without boundary".toList)
      else
        let headers := hmapSetAll ph (hmapSetAll (mailReadHeaders body) [])
        .ok [{ Type' := mt, Charset := (paramGet ps ("charset".toList)).getD [],
               Data := body, Headers := headers }]
    | some bnd => .ok (segsRunWith rec (scanSegs bnd (linesOf body)))

/-- `parseBody` at a given recursion fuel: the fuel stands in for Go's
native call stack, one unit per nesting level — the Go original recurses
without any bound. Exhausted fuel is reported like a failed recursive
call; it is unreachable from `parseBody` below, whose fuel strictly
exceeds any realizable nesting depth. -/
def parseBodyF : Nat → Bytes → Bytes → HMap → Except Bytes (List Part)
  | 0 => fun _ _ _ => .error ("recursion fuel exhausted".toList)
  | fuel + 1 => parseBodyStep (parseBodyF fuel)

/-- `parseBody` as called by `handleMessage`: the fuel is one more than
the number of lines of the body; every nesting level strictly reduces the
line count of the body it works on (the enclosing level's delimiter lines
are consumed), so this fuel never runs out. -/
def parseBody (ct body : Bytes) (ph : HMap) : Except Bytes (List Part) :=
  parseBodyF ((linesOf body).length + 1) ct body ph

/-! ## Collaborators not present in the given sources, modelled from the
specification (`tokenize`, `parseAddress`, `ParseAddress`,
`decodeRFC2047`, `Decode`, `UTF8`, `ParseDate`) -/

/-- Lexer state: outside any bracketed construct, inside a quoted string
(tracking a pending backslash escape), inside a comment (tracking its
nesting depth), or inside a domain literal. -/
inductive LexMode
  | normal
  | quoted (esc : Bool)
  | comment (depth : Nat)
  | domlit
deriving DecidableEq

/-- The specials of the spec's lexer: `,` `;` `@` `<` `>` `:`. -/
def isSpecialCh (c : Char) : Bool :=
  c = ',' ∨ c = ';' ∨ c = '@' ∨ c = '<' ∨ c = '>' ∨ c = ':'

/-- Emit a pending atom, if non-empty. -/
def flushTok (cur : Bytes) (acc : List Bytes) : List Bytes :=
  if cur = [] then acc else acc ++ [cur]

/-- Modelled from the spec: worker of the Lexer (§4.1), which is not among
the given source files. Whitespace outside quotes/comments separates
tokens and is not emitted; a quoted string runs to the next unescaped `"`
with escapes preserved literally; a comment runs to its matching `)`
(nested comments tracked by depth); a domain literal runs to `]`; each
special is a single-character token; everything else contiguous is an
atom. Tokens preserve their original bytes. An unterminated quoted
string, comment or domain literal is a lexing error. -/
def tokAux : Bytes → LexMode → Bytes → List Bytes → Except Bytes (List Bytes)
  | [], .normal, cur, acc => .ok (flushTok cur acc)
  | [], .quoted _, _, _ => .error ("lexer: unterminated quoted string".toList)
  | [], .comment _, _, _ => .error ("lexer: unterminated comment".toList)
  | [], .domlit, _, _ => .error ("lexer: unterminated domain literal".toList)
  | c :: t, .normal, cur, acc =>
    if isSpaceB c then tokAux t .normal [] (flushTok cur acc)
    else if c = '"' then tokAux t (.quoted false) ['"'] (flushTok cur acc)
    else if c = '(' then tokAux t (.comment 1) ['('] (flushTok cur acc)
    else if c = '[' then tokAux t .domlit ['['] (flushTok cur acc)
    else if isSpecialCh c then tokAux t .normal [] (flushTok cur acc ++ [[c]])
    else tokAux t .normal (cur ++ [c]) acc
  | c :: t, .quoted esc, cur, acc =>
    if esc then tokAux t (.quoted false) (cur ++ [c]) acc
    else if c = '\\' then tokAux t (.quoted true) (cur ++ [c]) acc
    else if c = '"' then tokAux t .normal [] (acc ++ [cur ++ ['"']])
    else tokAux t (.quoted false) (cur ++ [c]) acc
  | c :: t, .comment d, cur, acc =>
    if c = '(' then tokAux t (.comment (d + 1)) (cur ++ [c]) acc
    else if c = ')' then
      if d ≤ 1 then tokAux t .normal [] (acc ++ [cur ++ [')']])
      else tokAux t (.comment (d - 1)) (cur ++ [c]) acc
    else tokAux t (.comment d) (cur ++ [c]) acc
  | c :: t, .domlit, cur, acc =>
    if c = ']' then tokAux t .normal [] (acc ++ [cur ++ [']']])
    else tokAux t .domlit (cur ++ [c]) acc

/-- Modelled from the spec: `tokenize(raw_header_value)` of the Lexer
(§4.1), absent from the given sources. The source's `token` type is a
plain byte slice, so tokens are `Bytes`. -/
def tokenize (s : Bytes) : Except Bytes (List Bytes) := tokAux s .normal [] []

/-- A mailbox: optional display name, local part, domain (§3). -/
structure Mailbox where
  display : Option Bytes
  localPart : Bytes
  dom : Bytes
deriving DecidableEq, Repr

/-- An address is a mailbox or a named group of mailboxes (§3; a group
never nests groups). -/
inductive Address
  | mb (m : Mailbox)
  | group (gname : Bytes) (members : List Mailbox)
deriving DecidableEq, Repr

/-- Strip the surrounding quotes and backslash escapes from a
quoted-string token; other tokens are returned unchanged. -/
def unquoteTok (t : Bytes) : Bytes :=
  match t with
  | '"' :: rest => unq rest
  | _ => t
where
  /-- Unescape the quoted-string body, dropping the closing quote. -/
  unq : Bytes → Bytes
    | [] => []
    | ['"'] => []
    | '\\' :: c :: r => c :: unq r
    | c :: r => c :: unq r

/-- Join display-name tokens with single spaces, unquoting quoted
strings. -/
def displayJoin (ts : List Bytes) : Bytes :=
  joinWithChar ' ' (ts.map unquoteTok)

/-- Modelled from the spec: parse one token run into the `local@domain`
of a mailbox; malformed syntax (no `@`, or an empty side) is an
`AddressParseError` (§4.2). -/
def parseAddrSpec (ts : List Bytes) : Except Bytes (Bytes × Bytes) :=
  let localPart := (ts.takeWhile (· ≠ "@".toList)).foldl (· ++ ·) []
  let domPart := ((ts.dropWhile (· ≠ "@".toList)).drop 1).foldl (· ++ ·) []
  if ¬ ts.contains ("@".toList) ∨ localPart = [] ∨ domPart = [] then
    .error ("address parser: malformed mailbox".toList)
  else .ok (localPart, domPart)

/-- Modelled from the spec: parse one closed token run into a mailbox: an
optional display name before `<`, the addr-spec between `<` and `>`, or a
bare addr-spec without angle brackets (§4.2, §3). -/
def parseMailbox (ts : List Bytes) : Except Bytes Mailbox :=
  if ts.contains ("<".toList) then
    let dts := ts.takeWhile (· ≠ "<".toList)
    let inner := ((ts.dropWhile (· ≠ "<".toList)).drop 1).takeWhile (· ≠ ">".toList)
    match parseAddrSpec inner with
    | .error e => .error e
    | .ok (lp, d) =>
      .ok ⟨if dts = [] then none else some (displayJoin dts), lp, d⟩
  else
    match parseAddrSpec ts with
    | .error e => .error e
    | .ok (lp, d) => .ok ⟨none, lp, d⟩

/-- Parse every run of a group's member list. -/
def parseMailboxes : List (List Bytes) → Except Bytes (List Mailbox)
  | [] => .ok []
  | r :: rest => do
    let m ← parseMailbox r
    let ms ← parseMailboxes rest
    .ok (m :: ms)

/-- Go-style token split (`split` in the source, see below); forward
declaration used by the group parser. -/
def splitAux (s : Bytes) (cur : List Bytes) : List Bytes → List (List Bytes)
  | [] => if cur = [] then [] else [cur]
  | t :: rest => if t = s then cur :: splitAux s [] rest else splitAux s (cur ++ [t]) rest

/-- `split` of the source (`message.go`): split a token list on tokens
equal to `s`; a chunk after the final separator is emitted only when
non-empty (`l != len(ts)`). -/
def split (ts : List Bytes) (s : Bytes) : List (List Bytes) := splitAux s [] ts

/-- Modelled from the spec: parse one closed run into exactly one Address
— a group when a `:`...`;` Special pair is present (group name before the
colon, comma-separated member mailboxes between colon and semicolon),
otherwise a mailbox (§4.2). -/
def parseAddress (ts : List Bytes) : Except Bytes Address :=
  if ts.contains (":".toList) ∧ ts.contains (";".toList) then
    let gname := displayJoin (ts.takeWhile (· ≠ ":".toList))
    let inner := ((ts.dropWhile (· ≠ ":".toList)).drop 1).takeWhile (· ≠ ";".toList)
    match parseMailboxes (split inner (",".toList)) with
    | .error e => .error e
    | .ok ms => .ok (.group gname ms)
  else
    match parseMailbox ts with
    | .error e => .error e
    | .ok m => .ok (.mb m)

/-- Modelled from the spec: the RFC 2047 decoder collaborator
(`decode_words`, §6), absent from the given sources. An input without an
encoded word is returned unchanged; an input containing the `=?`
introducer is treated as failing to decode (no claim exercises actual
encoded-word decoding, and on failure the callers keep the raw bytes). -/
def decodeRFC2047 (s : Bytes) : Except Bytes Bytes :=
  if hasSub s ("=?".toList) then .error ("encoded word: malformed".toList) else .ok s

/-- Modelled from the spec: `Decode`, the RFC 2047 decode entry point used
for Subject values and attachment filenames; same contract as
`decodeRFC2047`. -/
def Decode (s : Bytes) : Except Bytes Bytes := decodeRFC2047 s

/-- Modelled from the spec: `to_utf8(charset_name, bytes)` (§4.4), absent
from the given sources. UTF-8 and US-ASCII input (case-insensitive
charset name) is already UTF-8 and is returned unchanged; any other
charset name is unrecognized and fails with a charset error. -/
def UTF8 (charset : Bytes) (d : Bytes) : Except Bytes Bytes :=
  if toLowerB charset = "utf-8".toList ∨ toLowerB charset = "us-ascii".toList then .ok d
  else .error ("charset: unsupported charset".toList)

/-- Modelled from the spec: the best-effort date parser collaborator
(`parse_date`, §6), absent from the given sources: on total failure it
returns the zero timestamp rather than failing. No claim depends on a
successful layout match, so the model maps every input to the zero
timestamp. -/
def ParseDate (_ : Bytes) : Nat := 0

/-! ## `parseAddressList` (`message.go`) -/

/-- The accumulate-then-decide loop of `parseAddressList`: walk the
comma-split chunks, flatten each chunk's bytes to test for `@`, re-insert
a `,` token when a split is suppressed (chunk without `@` that is not the
last), and close the accumulated run when the chunk contains `@` or is the
last one. -/
def accumRuns (lsb : List Bytes) : List (List Bytes) → List (List Bytes)
  | [] => []
  | [t] => [lsb ++ t]
  | t :: rest =>
    let fc := t.foldl (· ++ ·) []
    if hasSub fc ("@".toList) then (lsb ++ t) :: accumRuns [] rest
    else accumRuns (lsb ++ t ++ [",".toList]) rest

/-- The final loop of `parseAddressList`: parse each closed run into one
Address; on the first failure Go returns the addresses parsed so far plus
the error. -/
def parseRuns : List (List Bytes) → List Address → (List Address × Option Bytes)
  | [], acc => (acc, none)
  | r :: rest, acc =>
    match parseAddress r with
    | .error e => (acc, some e)
    | .ok a => parseRuns rest (acc ++ [a])

/-- `parseAddressList` of the source (`message.go`): RFC 2047 decode (kept
only on success), tokenize (failure aborts), split on `,` tokens, run the
accumulate-then-decide loop, and parse each run into one Address. -/
def parseAddressList (s : Bytes) : List Address × Option Bytes :=
  let s := match decodeRFC2047 s with
    | .ok dd => dd
    | .error _ => s
  match tokenize s with
  | .error e => ([], some e)
  | .ok ts =>
    let stb := split ts (",".toList)
    parseRuns (accumRuns [] stb) []

/-! ## `decodeContentTransferEncoding` and `handleMessage` (`message.go`) -/

/-- An attachment: decoded filename and data. -/
structure Attachment where
  Filename : Bytes
  Data : Bytes
deriving DecidableEq, Repr

/-- The `Message` of `message.go` (the `Headers`/`Body` byte blocks are
filled by `Parse`, outside `handleMessage`). Dates are modelled as the
timestamp returned by the spec-modelled date parser. -/
structure Message where
  Headers : Bytes := []
  Body : Bytes := []
  ParsedHeaders : HMap := []
  MessageID : Bytes := []
  Date : Nat := 0
  Sender : Option Address := none
  From : List Address := []
  ReplyTo : List Address := []
  To : List Address := []
  Cc : List Address := []
  Bcc : List Address := []
  Subject : Bytes := []
  ContentType : Bytes := []
  Comments : List Bytes := []
  Keywords : List Bytes := []
  InReply : List Bytes := []
  References : List Bytes := []
  Text : Bytes := []
  Html : Bytes := []
  Attachments : List Attachment := []
  Parts : List Part := []
deriving DecidableEq, Repr

/-- One raw header (key, raw value) as delivered by the raw splitter. -/
structure RawHeader where
  Key : Bytes
  Value : Bytes
deriving DecidableEq, Repr

/-- The raw splitter's output consumed by `handleMessage`: ordered raw
headers and the body block. -/
structure RawMessage where
  RawHeaders : List RawHeader := []
  Body : Bytes := []
deriving DecidableEq, Repr

/-- `decodeContentTransferEncoding` of `message.go`: resolve the encoding
name from the part headers, else the message headers (first value of the
`Content-Transfer-Encoding` key, lower-cased); `base64` decodes with the
standard decoder, keeping its output (the successfully decoded prefix)
and wrapping its `CorruptInputError` into the returned error;
`quoted-printable` decodes best-effort with the read error discarded; any
other name leaves the bytes unchanged. -/
def decodeContentTransferEncoding (msgHeaders partHeaders : HMap) (toDecode : Bytes) :
    Bytes × Option Bytes :=
  let cteKey := "Content-Transfer-Encoding".toList
  let encoding :=
    if mapHasKey partHeaders cteKey then toLowerB ((mapGet partHeaders cteKey).headD [])
    else if mapHasKey msgHeaders cteKey then toLowerB ((mapGet msgHeaders cteKey).headD [])
    else []
  if toLowerB encoding = "base64".toList then
    let (out, errAt) := b64decode toDecode
    match errAt with
    | none => (out, none)
    | some i =>
      (out, some ("body parser: failed decode base64 [msg: illegal base64 data at input byte ".toList
        ++ Nat.toDigits 10 i ++ "]".toList))
  else if toLowerB encoding = "quoted-printable".toList then (qpDecode toDecode, none)
  else (toDecode, none)

/-- The message fields mutated by the part-classification loop of
`handleMessage` (text, html, attachments) together with the running error
list. -/
structure ClassSt where
  Text : Bytes
  Html : Bytes
  Atts : List Attachment
  errs : List Bytes
deriving DecidableEq, Repr

/-- The error-list append for an optional decode error. -/
def errsWith (errs : List Bytes) : Option Bytes → List Bytes
  | none => errs
  | some e => errs ++ [e]

/-- The `for k, part := range parts` classification loop of
`handleMessage`: a part whose type contains `text/plain` (`text/html`) is
transfer-decoded — a decode failure is recorded and the partial output
kept — then charset-normalized; on normalization success the text (html)
field and the part's stored data are both updated, on failure only the
text (html) field is set to the transfer-decoded bytes. Any other part
with an `attachment` Content-Disposition has its filename extracted by
the `name="..."` pattern (a miss is recorded and drops the attachment),
RFC-2047-decoded (a failure is recorded and the undecoded name kept), its
data transfer-decoded, and is appended to the attachments; parts without
an attachment disposition are left as they are. Returns the updated part
list and state. -/
def classifyLoop (msgH : HMap) : List Part → ClassSt → (List Part × ClassSt)
  | [], st => ([], st)
  | p :: rest, st =>
    let (p', st') :=
      if hasSub p.Type' ("text/plain".toList) then
        let (d, e) := decodeContentTransferEncoding msgH p.Headers p.Data
        let errs := errsWith st.errs e
        match UTF8 p.Charset d with
        | .error _ => (p, { st with Text := d, errs := errs })
        | .ok data => ({ p with Data := data }, { st with Text := data, errs := errs })
      else if hasSub p.Type' ("text/html".toList) then
        let (d, e) := decodeContentTransferEncoding msgH p.Headers p.Data
        let errs := errsWith st.errs e
        match UTF8 p.Charset d with
        | .error _ => (p, { st with Html := d, errs := errs })
        | .ok data => ({ p with Data := data }, { st with Html := data, errs := errs })
      else
        if mapHasKey p.Headers ("Content-Disposition".toList) then
          let cd0 := (mapGet p.Headers ("Content-Disposition".toList)).headD []
          if hasSub cd0 ("attachment".toList) then
            match nameCapture cd0 with
            | none =>
              (p, { st with errs := st.errs
                    ++ ["body parser: failed get filename from header Content-Disposition".toList] })
            | some fn =>
              let (fn', errs1) := match Decode fn with
                | .error e =>
                  (fn, ["body parser: failed decode filename of attachment [msg: ".toList
                        ++ e ++ "]".toList])
                | .ok dfn => (dfn, [])
              let (d, e2) := decodeContentTransferEncoding msgH p.Headers p.Data
              (p, { st with
                      Atts := st.Atts ++ [⟨fn', d⟩]
                      errs := errsWith (st.errs ++ errs1) e2 })
          else (p, st)
        else (p, st)
    let (rest', st'') := classifyLoop msgH rest st'
    (p' :: rest', st'')

/-- Modelled from the spec: `ParseAddress` (single address, used for the
`Sender` header), absent from the given sources: tokenize the value and
parse the whole token run as one address. -/
def ParseAddress (s : Bytes) : Except Bytes Address := do
  parseAddress (← tokenize s)

/-- The `switch strings.ToLower(string(rh.Key))` dispatch of the header
loop of `handleMessage`, over the lower-cased key `k` and the raw value
`v`; a parse failure is appended as a `header parser:` error and
processing continues. The source's `message-id` case trims `<>` from
the raw value (its `TrimSpace` result is discarded by the source). -/
def dispatchHeader (msg : Message) (errs : List Bytes) (k v : Bytes) : Message × List Bytes :=
  if k = "content-type".toList then ({ msg with ContentType := v }, errs)
  else if k = "message-id".toList then
    ({ msg with MessageID := trimSetB v ("<>".toList) }, errs)
  else if k = "in-reply-to".toList then
    ({ msg with InReply := msg.InReply ++ (fieldsB v).map (trimSetB · ("<> ".toList)) }, errs)
  else if k = "references".toList then
    ({ msg with References := msg.References
        ++ (fieldsB v).map (trimSetB · ("<> ".toList)) }, errs)
  else if k = "date".toList then ({ msg with Date := ParseDate v }, errs)
  else if k = "from".toList then
    ({ msg with From := (parseAddressList v).1 },
      errsWith errs ((parseAddressList v).2.map ("header parser: ".toList ++ ·)))
  else if k = "sender".toList then
    match ParseAddress v with
    | .ok a => ({ msg with Sender := some a }, errs)
    | .error e => ({ msg with Sender := none }, errs ++ ["header parser: ".toList ++ e])
  else if k = "reply-to".toList then
    ({ msg with ReplyTo := (parseAddressList v).1 },
      errsWith errs ((parseAddressList v).2.map ("header parser: ".toList ++ ·)))
  else if k = "to".toList then
    ({ msg with To := (parseAddressList v).1 },
      errsWith errs ((parseAddressList v).2.map ("header parser: ".toList ++ ·)))
  else if k = "cc".toList then
    ({ msg with Cc := (parseAddressList v).1 },
      errsWith errs ((parseAddressList v).2.map ("header parser: ".toList ++ ·)))
  else if k = "bcc".toList then
    ({ msg with Bcc := (parseAddressList v).1 },
      errsWith errs ((parseAddressList v).2.map ("header parser: ".toList ++ ·)))
  else if k = "subject".toList then
    match Decode v with
    | .ok sub => ({ msg with Subject := sub }, errs)
    | .error e => ({ msg with Subject := [] }, errs ++ ["header parser: ".toList ++ e])
  else if k = "comments".toList then
    ({ msg with Comments := msg.Comments ++ [v] }, errs)
  else if k = "keywords".toList then
    ({ msg with Keywords := msg.Keywords
        ++ (splitOnCharB ',' v).map trimSpaceB }, errs)
  else (msg, errs)

/-- One iteration of the header loop of `handleMessage`: record the raw
header in `ParsedHeaders` under its raw key, then dispatch on the
lower-cased key. -/
def headerStep (st : Message × List Bytes) (rh : RawHeader) : Message × List Bytes :=
  dispatchHeader { st.1 with ParsedHeaders := mapAppendVal st.1.ParsedHeaders rh.Key rh.Value }
    st.2 (toLowerB rh.Key) rh.Value

/-- The header loop of `handleMessage` over the ordered raw headers. -/
def processHeaders (r : RawMessage) : Message × List Bytes :=
  r.RawHeaders.foldl headerStep ({}, [])

/-- `if msg.Sender == nil && len(msg.From) > 0 { msg.Sender = msg.From[0] }`. -/
def applySenderDefault (msg : Message) : Message :=
  match msg.Sender, msg.From with
  | none, a :: _ => { msg with Sender := some a }
  | _, _ => msg

/-- `handleMessage` of `message.go`. After the header loop and the sender
default: with an empty content type the whole body becomes the text;
otherwise the body is decomposed — a decomposition error makes the raw
body the text and is recorded as a `body parser:` error, with a message
still returned — and on success the parts are classified, after which the
source unconditionally overwrites the content type and text with
`parts[0].Type` and `parts[0].Data` (discarding the classification loop's
text assignment). With an empty part list that `parts[0]` access panics
(index out of range), modelled as `none`. -/
def handleMessage (r : RawMessage) : Option (Message × List Bytes) :=
  let msg0 := (processHeaders r).1
  let errs0 := (processHeaders r).2
  let msg := applySenderDefault msg0
  if msg.ContentType ≠ [] then
    match parseBody msg.ContentType r.Body [] with
    | .error e => some ({ msg with Text := r.Body }, errs0 ++ ["body parser: ".toList ++ e])
    | .ok parts =>
      let flow := classifyLoop msg.ParsedHeaders parts ⟨msg.Text, msg.Html, [], errs0⟩
      let parts' := flow.1
      let st := flow.2
      match parts' with
      | [] => none
      | p0 :: _ =>
        some ({ msg with
                  Text := p0.Data
                  Html := st.Html
                  Attachments := st.Atts
                  Parts := parts'
                  ContentType := p0.Type' }, st.errs)
  else some ({ msg with Text := r.Body }, errs0)

/-! ## The content-type value seen by the body parser, and a spec-side
reading of the leaf header merge -/

/-- The message content type after the header loop (the last
`Content-Type` header wins), as used by `handleMessage` for the body. -/
def msgContentType (r : RawMessage) : Bytes := (processHeaders r).1.ContentType

/-- Definition following the specification's words (§4.3 step 2, for
comparison with the source): the leaf part's header mapping as "the
headers merged with inherited ones taking lower priority than the part's
own headers", where the part's own headers are the headers found in the
leaf body. -/
def specLeafHeaders (body : Bytes) (ph : HMap) : HMap :=
  hmapSetAll (readHdrLines (linesOf body) []).fst (hmapSetAll ph [])

/-! ## The nested-multipart input family (for the recursion-depth claim)
and the concrete example messages of the other claims -/

/-- Level-`k` boundary of the nested family: `k + 1` letters `b`
(pairwise distinct across levels, and no boundary is a line-delimiter
prefix of a deeper one's delimiter lines). -/
def bndN (k : Nat) : Bytes := List.replicate (k + 1) 'b'

/-- Level-`k` content type: a leaf with a charset at level `0`, a
boundary-carrying type above it. -/
def ctN : Nat → Bytes
  | 0 => "t/p; charset=u".toList
  | k + 1 => "x/m; boundary=".toList ++ bndN k

/-- The delimiter line `--` + boundary of level `k`. -/
def dlN (k : Nat) : Bytes := '-' :: '-' :: bndN k

/-- The closing delimiter line `--` + boundary + `--` of level `k`. -/
def clN (k : Nat) : Bytes := '-' :: '-' :: (bndN k ++ ['-', '-'])

/-- The `Content-Type` header line of the level-`k` segment. -/
def ctLineN (k : Nat) : Bytes := "Content-Type: ".toList ++ ctN k

/-- The nested body family: level `k + 1` is one boundary-delimited
segment whose content type is the level-`k` one and whose data is the
level-`k` body; nesting depth grows with `k` without bound. -/
def bodyN : Nat → Bytes
  | 0 => "d".toList
  | k + 1 => dlN k ++ ('\n' :: (ctLineN k ++ ('\n' :: ('\n' :: (bodyN k ++ ('\n' :: clN k))))))

/-- The headers of the innermost segment of the nested family, inherited
by its leaf part. -/
def nestedLeafHdrs : HMap := [("Content-Type".toList, [ctN 0])]

/-- The leaf part that decomposing any level of the nested family
produces (the level-`0` headers merge resolves to the inherited ph). -/
def nestedLeaf (ph : HMap) : Part :=
  { Type' := "t/p".toList, Charset := "u".toList, Data := "d".toList,
    Headers := hmapSetAll ph [] }

/-- The single part produced by decomposing level `k` of the nested
family with inherited headers `ph`: at level `0` the leaf inherits `ph`,
above it the leaf inherits the innermost segment's headers. -/
def nestedResult : Nat → HMap → Part
  | 0, ph => nestedLeaf ph
  | _ + 1, _ => nestedLeaf nestedLeafHdrs

/-- Message with two `text/plain` parts (`AAA` then `BBB`). -/
def rawTwoPlain : RawMessage :=
  { RawHeaders := [⟨"Content-Type".toList, "multipart/mixed; boundary=q".toList⟩],
    Body := ("--q\nContent-Type: text/plain; charset=utf-8\n\nAAA\n--q\n"
      ++ "Content-Type: text/plain; charset=utf-8\n\nBBB\n--q--").toList }

/-- Message with a single `text/plain` part (`hello`). -/
def rawOnePlain : RawMessage :=
  { RawHeaders := [⟨"Content-Type".toList, "multipart/mixed; boundary=q".toList⟩],
    Body := ("--q\nContent-Type: text/plain; charset=utf-8\n\nhello\n--q--").toList }

/-- Message whose single `text/plain` part declares `base64` but carries
invalid base64 data (`QUJD!`: one valid quantum, then an illegal byte). -/
def rawBadB64 : RawMessage :=
  { RawHeaders := [⟨"Content-Type".toList, "multipart/mixed; boundary=q".toList⟩],
    Body := ("--q\nContent-Type: text/plain; charset=utf-8\n"
      ++ "Content-Transfer-Encoding: base64\n\nQUJD!\n--q--").toList }

/-- Message declaring a multipart content type without a boundary. -/
def rawNoBoundary : RawMessage :=
  { RawHeaders := [⟨"Content-Type".toList, "multipart/mixed".toList⟩],
    Body := "hi".toList }

/-- A second multipart-without-boundary message (witness input). -/
def rawNoBoundary2 : RawMessage :=
  { RawHeaders := [⟨"Content-Type".toList, "multipart/related".toList⟩],
    Body := "yo".toList }

/-- Multipart message whose only segment has no `Content-Type` header:
decomposition succeeds with an empty part list. -/
def rawAllSkipped : RawMessage :=
  { RawHeaders := [⟨"Content-Type".toList, "multipart/mixed; boundary=z".toList⟩],
    Body := "--z\nX-Other: 1\n\nstuff\n--z--".toList }

/-- Leaf body whose leading lines look like a header block (`X-Test: own`),
with an inherited header of the same name. -/
def bodyHdrClash : Bytes := "X-Test: own\n\nhello".toList

/-- The inherited headers clashing with `bodyHdrClash`'s own header. -/
def phHdrClash : HMap := [("X-Test".toList, ["inherited".toList])]

/-- A segment without a `Content-Type` header (skipped by the loop). -/
def segNoCT : Seg := ⟨[("X-Foo".toList, ["1".toList])], "data".toList⟩

/-- A segment whose recursive decomposition fails (multipart content type
without a boundary parameter). -/
def segBadInner : Seg :=
  ⟨[("Content-Type".toList, ["multipart/alternative".toList])], "inner".toList⟩

/-- A segment that decomposes into one plain leaf. -/
def segPlain : Seg :=
  ⟨[("Content-Type".toList, ["text/plain; charset=utf-8".toList])], "ok".toList⟩

/-- The part `handleMessage` produces for `rawOnePlain`. -/
def partOnePlain : Part :=
  { Type' := "text/plain".toList, Charset := "utf-8".toList, Data := "hello".toList,
    Headers := [("Content-Type".toList, ["text/plain; charset=utf-8".toList])] }

/-- The message `handleMessage` produces for `rawOnePlain`. -/
def msgOnePlain : Message :=
  { ParsedHeaders := [("Content-Type".toList, ["multipart/mixed; boundary=q".toList])],
    ContentType := "text/plain".toList, Text := "hello".toList, Parts := [partOnePlain] }

deriving instance DecidableEq for Except

/-! ## Support lemmas -/

/-- The header dispatch never touches the body-derived fields. -/
theorem dispatchHeader_body_fields (msg : Message) (errs : List Bytes) (k v : Bytes) :
    (dispatchHeader msg errs k v).1.Parts = msg.Parts ∧
      (dispatchHeader msg errs k v).1.Text = msg.Text ∧
      (dispatchHeader msg errs k v).1.Html = msg.Html := by
  unfold dispatchHeader
  by_cases h1 : k = "content-type".toList
  · rw [if_pos h1]; exact ⟨rfl, rfl, rfl⟩
  rw [if_neg h1]
  by_cases h2 : k = "message-id".toList
  · rw [if_pos h2]; exact ⟨rfl, rfl, rfl⟩
  rw [if_neg h2]
  by_cases h3 : k = "in-reply-to".toList
  · rw [if_pos h3]; exact ⟨rfl, rfl, rfl⟩
  rw [if_neg h3]
  by_cases h4 : k = "references".toList
  · rw [if_pos h4]; exact ⟨rfl, rfl, rfl⟩
  rw [if_neg h4]
  by_cases h5 : k = "date".toList
  · rw [if_pos h5]; exact ⟨rfl, rfl, rfl⟩
  rw [if_neg h5]
  by_cases h6 : k = "from".toList
  · rw [if_pos h6]; exact ⟨rfl, rfl, rfl⟩
  rw [if_neg h6]
  by_cases h7 : k = "sender".toList
  · rw [if_pos h7]; cases ParseAddress v <;> exact ⟨rfl, rfl, rfl⟩
  rw [if_neg h7]
  by_cases h8 : k = "reply-to".toList
  · rw [if_pos h8]; exact ⟨rfl, rfl, rfl⟩
  rw [if_neg h8]
  by_cases h9 : k = "to".toList
  · rw [if_pos h9]; exact ⟨rfl, rfl, rfl⟩
  rw [if_neg h9]
  by_cases h10 : k = "cc".toList
  · rw [if_pos h10]; exact ⟨rfl, rfl, rfl⟩
  rw [if_neg h10]
  by_cases h11 : k = "bcc".toList
  · rw [if_pos h11]; exact ⟨rfl, rfl, rfl⟩
  rw [if_neg h11]
  by_cases h12 : k = "subject".toList
  · rw [if_pos h12]; cases Decode v <;> exact ⟨rfl, rfl, rfl⟩
  rw [if_neg h12]
  by_cases h13 : k = "comments".toList
  · rw [if_pos h13]; exact ⟨rfl, rfl, rfl⟩
  rw [if_neg h13]
  by_cases h14 : k = "keywords".toList
  · rw [if_pos h14]; exact ⟨rfl, rfl, rfl⟩
  rw [if_neg h14]
  exact ⟨rfl, rfl, rfl⟩

/-- One header-loop iteration never touches the body-derived fields. -/
theorem headerStep_body_fields (st : Message × List Bytes) (rh : RawHeader) :
    (headerStep st rh).1.Parts = st.1.Parts ∧ (headerStep st rh).1.Text = st.1.Text ∧
      (headerStep st rh).1.Html = st.1.Html :=
  dispatchHeader_body_fields _ st.2 (toLowerB rh.Key) rh.Value

/-- The header loop never touches the part list. -/
theorem foldl_headerStep_parts (l : List RawHeader) :
    ∀ st : Message × List Bytes, (l.foldl headerStep st).1.Parts = st.1.Parts := by
  induction l with
  | nil => intro st; rfl
  | cons h t ih => intro st; rw [List.foldl_cons, ih, (headerStep_body_fields st h).1]

/-- After the header loop the part list is still empty. -/
theorem processHeaders_parts (r : RawMessage) : (processHeaders r).1.Parts = [] :=
  foldl_headerStep_parts r.RawHeaders ({}, [])

/-- The sender default only touches the sender field. -/
theorem applySenderDefault_ct (m : Message) :
    (applySenderDefault m).ContentType = m.ContentType := by
  simp only [applySenderDefault]
  split <;> rfl

/-- The sender default keeps the part list. -/
theorem applySenderDefault_parts (m : Message) :
    (applySenderDefault m).Parts = m.Parts := by
  simp only [applySenderDefault]
  split <;> rfl

/-- The CRLF prepended by `parseBody` before `mail.ReadMessage` makes the
header section empty at once: no headers are ever found in a leaf body. -/
theorem mailReadHeaders_eq_nil (body : Bytes) : mailReadHeaders body = [] := rfl

/-- Shared helper: when the top-level body decomposition fails,
`handleMessage` returns the message with the raw body as its text and the
failure appended to the error list. -/
theorem handleMessage_on_parse_error (r : RawMessage) (e : Bytes)
    (hct : msgContentType r ≠ []) (hpb : parseBody (msgContentType r) r.Body [] = .error e) :
    handleMessage r =
      some ({ applySenderDefault (processHeaders r).1 with Text := r.Body },
        (processHeaders r).2 ++ ["body parser: ".toList ++ e]) := by
  unfold handleMessage
  dsimp only
  rw [applySenderDefault_ct]
  rw [if_pos (show (processHeaders r).1.ContentType ≠ [] from hct)]
  rw [show parseBody ((processHeaders r).1.ContentType) r.Body [] = .error e from hpb]

/-! ## Claim theorems -/

/-- C5: for every message whose top-level body decomposition returns an
error, message assembly does not abort: the plain-text field is set to the
raw body, the failure is appended to the error list as a `body parser:`
error, and a Message is still returned. -/
theorem C5_decomposition_failure_fallback (r : RawMessage) (e : Bytes)
    (hct : msgContentType r ≠ []) (hpb : parseBody (msgContentType r) r.Body [] = .error e) :
    handleMessage r =
      some ({ applySenderDefault (processHeaders r).1 with Text := r.Body },
        (processHeaders r).2 ++ ["body parser: ".toList ++ e]) :=
  handleMessage_on_parse_error r e hct hpb

/-- C5 witness: a concrete multipart message without a boundary is still
assembled, with the raw body as text and the failure recorded. -/
theorem C5_decomposition_failure_fallback_witness :
    msgContentType rawNoBoundary2 ≠ [] ∧
      parseBody (msgContentType rawNoBoundary2) rawNoBoundary2.Body [] =
        .error ("multipart specified without boundary".toList) ∧
      handleMessage rawNoBoundary2 =
        some ({ applySenderDefault (processHeaders rawNoBoundary2).1 with
                  Text := rawNoBoundary2.Body },
          (processHeaders rawNoBoundary2).2
            ++ ["body parser: ".toList ++ "multipart specified without boundary".toList]) :=
  ⟨by decide, by decide,
    C5_decomposition_failure_fallback rawNoBoundary2
      ("multipart specified without boundary".toList) (by decide) (by decide)⟩

/-- C4 counterexample: a message whose top-level content type is
`multipart/mixed` with no boundary parameter is NOT aborted fatally — the
parse returns a Message whose text is the raw body, with the failure
merely recorded as an error in the returned list, contradicting the claim
that no best-effort Message is produced. -/
theorem C4_no_boundary_nonfatal_cex :
    ((handleMessage rawNoBoundary).map fun p => (p.1.Text, p.2))
      = some ("hi".toList, ["body parser: multipart specified without boundary".toList]) ∧
    (handleMessage rawNoBoundary).isSome = true := by
  constructor
  · decide
  · decide

/-- C4 amended: for every message whose top-level content type parses to a
`multipart` media type without a `boundary` parameter, the error is
non-fatal at message level: `handleMessage` still returns a Message whose
text falls back to the raw body, with `body parser: multipart specified
without boundary` appended to the error list (part classification is
skipped). -/
theorem C4_no_boundary_recorded_amended (r : RawMessage) (mt : Bytes)
    (ps : List (Bytes × Bytes))
    (hmt : parseMediaType (msgContentType r) = .ok (mt, ps))
    (hpre : ("multipart".toList).isPrefixOf mt = true)
    (hbnd : paramGet ps ("boundary".toList) = none) :
    handleMessage r =
      some ({ applySenderDefault (processHeaders r).1 with Text := r.Body },
        (processHeaders r).2
          ++ ["body parser: ".toList ++ "multipart specified without boundary".toList]) := by
  have hct : msgContentType r ≠ [] := by
    intro h
    rw [h] at hmt
    rw [show parseMediaType ([] : Bytes) = .error ("mime: no media type".toList) from by decide]
      at hmt
    exact Except.noConfusion hmt
  have hpb : parseBody (msgContentType r) r.Body [] =
      .error ("multipart specified without boundary".toList) := by
    rw [show parseBody (msgContentType r) r.Body [] =
        parseBodyStep (parseBodyF (linesOf r.Body).length) (msgContentType r) r.Body []
      from rfl]
    unfold parseBodyStep
    rw [hmt]
    dsimp only
    rw [hbnd]
    dsimp only
    rw [if_pos hpre]
  exact handleMessage_on_parse_error r _ hct hpb

/-- C4 amended witness: concrete `multipart/related` message without a
boundary. -/
theorem C4_no_boundary_recorded_amended_witness :
    parseMediaType (msgContentType rawNoBoundary) =
        .ok ("multipart/mixed".toList, []) ∧
      ("multipart".toList).isPrefixOf "multipart/mixed".toList = true ∧
      handleMessage rawNoBoundary =
        some ({ applySenderDefault (processHeaders rawNoBoundary).1 with
                  Text := rawNoBoundary.Body },
          (processHeaders rawNoBoundary).2
            ++ ["body parser: ".toList ++ "multipart specified without boundary".toList]) :=
  ⟨by decide, by decide,
    C4_no_boundary_recorded_amended rawNoBoundary "multipart/mixed".toList []
      (by decide) (by decide) (by decide)⟩

/-- C1 counterexample: a message with two `text/plain` parts (`AAA` then
`BBB`); both parts are decoded and the classification loop assigns the
last one, but the final text is the FIRST part's data `AAA`, not the last
text/plain part's `BBB` — the claimed last-wins result does not survive
assembly. -/
theorem C1_text_not_last_plain_cex :
    ((handleMessage rawTwoPlain).map fun p =>
        (p.1.Text, p.1.Parts.map fun q => (q.Type', q.Data)))
      = some ("AAA".toList,
          [("text/plain".toList, "AAA".toList), ("text/plain".toList, "BBB".toList)]) ∧
    ("AAA".toList : Bytes) ≠ "BBB".toList := by
  constructor
  · decide
  · decide

/-- C1 amended: each `text/plain` part is transfer-decoded,
charset-normalized and assigned to the text field inside the
classification loop (last such part winning there), but after the loop
`handleMessage` unconditionally overwrites the text and content type with
the FIRST part's data and type; hence whenever a Message is produced with
a non-empty part list, its plain-text field equals the first part's data,
not the last text/plain part's. -/
theorem C1_text_first_part_amended (r : RawMessage) (m : Message) (es : List Bytes)
    (p0 : Part) (ps : List Part)
    (hm : handleMessage r = some (m, es)) (hp : m.Parts = p0 :: ps) :
    m.Text = p0.Data ∧ m.ContentType = p0.Type' := by
  unfold handleMessage at hm
  dsimp only at hm
  by_cases hct : (applySenderDefault (processHeaders r).1).ContentType ≠ []
  · rw [if_pos hct] at hm
    cases hpb : parseBody (applySenderDefault (processHeaders r).1).ContentType r.Body [] with
    | error e =>
      rw [hpb] at hm
      dsimp only at hm
      obtain ⟨h1, _⟩ := Prod.mk.inj (Option.some.inj hm)
      rw [← h1] at hp
      rw [show ({ applySenderDefault (processHeaders r).1 with Text := r.Body } : Message).Parts
          = (applySenderDefault (processHeaders r).1).Parts from rfl,
        applySenderDefault_parts, processHeaders_parts] at hp
      exact List.noConfusion hp
    | ok parts =>
      rw [hpb] at hm
      dsimp only at hm
      cases hcl : (classifyLoop (applySenderDefault (processHeaders r).1).ParsedHeaders parts
          ⟨(applySenderDefault (processHeaders r).1).Text,
            (applySenderDefault (processHeaders r).1).Html, [],
            (processHeaders r).2⟩).1 with
      | nil =>
        rw [hcl] at hm
        exact Option.noConfusion hm
      | cons q qs =>
        rw [hcl] at hm
        dsimp only at hm
        obtain ⟨h1, _⟩ := Prod.mk.inj (Option.some.inj hm)
        rw [← h1] at hp ⊢
        dsimp only at hp ⊢
        obtain rfl : q = p0 := (List.cons.inj hp).1
        exact ⟨rfl, rfl⟩
  · rw [if_neg hct] at hm
    obtain ⟨h1, _⟩ := Prod.mk.inj (Option.some.inj hm)
    rw [← h1] at hp
    rw [show ({ applySenderDefault (processHeaders r).1 with Text := r.Body } : Message).Parts
        = (applySenderDefault (processHeaders r).1).Parts from rfl,
      applySenderDefault_parts, processHeaders_parts] at hp
    exact List.noConfusion hp

/-- C1 amended witness: the single-part message instantiates the amended
statement (text equals the first part's data). -/
theorem C1_text_first_part_amended_witness :
    handleMessage rawOnePlain = some (msgOnePlain, []) ∧
      msgOnePlain.Parts = partOnePlain :: [] ∧
      (msgOnePlain.Text = partOnePlain.Data ∧ msgOnePlain.ContentType = partOnePlain.Type') :=
  ⟨by decide, by decide,
    C1_text_first_part_amended rawOnePlain msgOnePlain [] partOnePlain []
      (by decide) (by decide)⟩

/-- C2 counterexample: a part declaring `Content-Transfer-Encoding:
base64` with invalid data `QUJD!`. The failure is recorded as a non-fatal
error, but the part's data afterwards is `ABC` — the successfully decoded
prefix returned by the Go base64 decoder — NOT the raw input bytes
`QUJD!` that the claim promises. -/
theorem C2_base64_partial_cex :
    ((handleMessage rawBadB64).map fun p =>
        (p.1.Text, p.1.Parts.map (·.Data), p.2))
      = some ("ABC".toList, ["ABC".toList],
          [("body parser: failed decode base64 [msg: illegal base64 data at input byte 4]"
            ).toList]) ∧
    ("ABC".toList : Bytes) ≠ "QUJD!".toList := by
  constructor
  · decide
  · decide

/-- C2 amended: for every part resolving its transfer encoding to
`base64` whose data is invalid, the decode reports an error (which
`handleMessage` records as non-fatal, as the counterexample shows) and the
part's data afterwards equals the successfully decoded prefix produced by
the standard base64 decoder — which can differ from the raw input. -/
theorem C2_base64_partial_amended (mh ph : HMap) (d out : Bytes) (i : Nat)
    (s : Bytes) (ss : List Bytes)
    (h1 : mapHasKey ph ("Content-Transfer-Encoding".toList) = true)
    (h2 : mapGet ph ("Content-Transfer-Encoding".toList) = s :: ss)
    (h3 : toLowerB s = "base64".toList)
    (h4 : b64decode d = (out, some i)) :
    decodeContentTransferEncoding mh ph d =
      (out, some
        ("body parser: failed decode base64 [msg: illegal base64 data at input byte ".toList
          ++ Nat.toDigits 10 i ++ "]".toList)) := by
  unfold decodeContentTransferEncoding
  dsimp only
  rw [if_pos h1, h2]
  dsimp only [List.headD]
  rw [h3]
  rw [if_pos (show toLowerB ("base64".toList) = "base64".toList from by decide)]
  rw [h4]

/-- C2 amended witness: the single-character input `!` declares base64 and
decodes to the empty prefix with an error at byte 0. -/
theorem C2_base64_partial_amended_witness :
    mapHasKey [("Content-Transfer-Encoding".toList, ["base64".toList])]
        ("Content-Transfer-Encoding".toList) = true ∧
      b64decode ("!".toList) = ([], some 0) ∧
      decodeContentTransferEncoding []
          [("Content-Transfer-Encoding".toList, ["base64".toList])] ("!".toList) =
        ([], some
          ("body parser: failed decode base64 [msg: illegal base64 data at input byte ".toList
            ++ Nat.toDigits 10 0 ++ "]".toList)) :=
  ⟨by decide, by decide,
    C2_base64_partial_amended [] [("Content-Transfer-Encoding".toList, ["base64".toList])]
      ("!".toList) [] 0 ("base64".toList) []
      (by decide) (by decide) (by decide) (by decide)⟩

/-- C9: a multipart body whose only segment has no `Content-Type` header
decomposes successfully to an EMPTY part list, after which `handleMessage`
reads `parts[0]` unconditionally and panics with an index-out-of-range
(modelled as `none`): the claimed non-emptiness of the part list fails. -/
theorem C9_empty_parts_oob :
    parseBody ("multipart/mixed; boundary=z".toList) rawAllSkipped.Body [] = .ok [] ∧
      msgContentType rawAllSkipped = "multipart/mixed; boundary=z".toList ∧
      handleMessage rawAllSkipped = none := by
  refine ⟨?_, ?_, ?_⟩
  · decide
  · decide
  · decide

/-- C6: the address list `"Doe, John" <john@x.com>, jane@y.com` — a
quoted display name containing a comma and no `@` — parses to exactly two
addresses, `Doe, John <john@x.com>` and `jane@y.com`, through the
tokenize / comma-split / accumulate-then-decide pipeline. -/
theorem C6_quoted_comma_two_addresses :
    parseAddressList ("\"Doe, John\" <john@x.com>, jane@y.com".toList)
        = ([Address.mb ⟨some ("Doe, John".toList), "john".toList, "x.com".toList⟩,
            Address.mb ⟨none, "jane".toList, "y.com".toList⟩], none) ∧
      (parseAddressList ("\"Doe, John\" <john@x.com>, jane@y.com".toList)).1.length = 2 := by
  constructor
  · decide
  · decide

/-- C7: in the decomposition loop, a boundary-delimited segment that
declares no `Content-Type` header is skipped entirely: at any position in
the segment list it contributes no part and no error, and the loop's
result is exactly that of the list without it. -/
theorem C7_no_content_type_skipped
    (rec : Bytes → Bytes → HMap → Except Bytes (List Part))
    (pre post : List Seg) (s : Seg)
    (h : mapGet s.headers ("Content-Type".toList) = []) :
    segsRunWith rec (pre ++ s :: post) = segsRunWith rec (pre ++ post) := by
  induction pre with
  | nil =>
    show (match mapGet s.headers ("Content-Type".toList) with
        | [] => []
        | ctv :: _ =>
          match rec ctv s.data s.headers with
          | .ok subs => subs
          | .error _ => [fallbackPart ctv s]) ++ segsRunWith rec post
      = segsRunWith rec post
    rw [h]
    rfl
  | cons t ts ih =>
    show (match mapGet t.headers ("Content-Type".toList) with
        | [] => []
        | ctv :: _ =>
          match rec ctv t.data t.headers with
          | .ok subs => subs
          | .error _ => [fallbackPart ctv t]) ++ segsRunWith rec (ts ++ s :: post)
      = (match mapGet t.headers ("Content-Type".toList) with
        | [] => []
        | ctv :: _ =>
          match rec ctv t.data t.headers with
          | .ok subs => subs
          | .error _ => [fallbackPart ctv t]) ++ segsRunWith rec (ts ++ post)
    rw [ih]

/-- C7 witness: a concrete no-`Content-Type` segment between two plain
segments is dropped. -/
theorem C7_no_content_type_skipped_witness :
    mapGet segNoCT.headers ("Content-Type".toList) = [] ∧
      segsRunWith (parseBodyF 1) ([segPlain] ++ segNoCT :: [segPlain]) =
        segsRunWith (parseBodyF 1) ([segPlain] ++ [segPlain]) :=
  ⟨by decide,
    C7_no_content_type_skipped (parseBodyF 1) [segPlain] [segPlain] segNoCT (by decide)⟩

/-- C8 counterexample: a leaf whose body begins with a header-looking
block `X-Test: own` and whose inherited headers carry the same name. The
decomposed part's mapping holds the INHERITED value, while the merge the
claim describes (leaf-body headers over inherited ones) yields the body's
own value — the priority in the code is the reverse of the claim, and the
leaf body's header block is not even parsed (a blank line is prepended
before header reading). -/
theorem C8_inherited_wins_cex :
    ((parseBody ("text/plain".toList) bodyHdrClash phHdrClash).map fun parts =>
        parts.map (fun p => mapGet p.Headers ("X-Test".toList)))
      = .ok [[("inherited".toList : Bytes)]] ∧
      mapGet (specLeafHeaders bodyHdrClash phHdrClash) ("X-Test".toList) = ["own".toList] ∧
      (["inherited".toList] : List Bytes) ≠ ["own".toList] := by
  refine ⟨?_, ?_, ?_⟩
  · decide
  · decide
  · decide

/-- C8 amended: when decomposition reaches a leaf (content type parses,
no boundary parameter, not multipart), the returned Part's header mapping
equals the inherited headers written into an empty map: because a blank
line is prepended before the leaf body is read, no headers are ever found
in the leaf body, and in the merge the inherited headers are written last
(taking priority over any leaf-body header), the reverse of the claimed
priority. -/
theorem C8_leaf_headers_inherited_amended (ct body : Bytes) (ph : HMap)
    (mt : Bytes) (ps : List (Bytes × Bytes))
    (hmt : parseMediaType ct = .ok (mt, ps))
    (hbnd : paramGet ps ("boundary".toList) = none)
    (hpre : ("multipart".toList).isPrefixOf mt = false) :
    parseBody ct body ph =
      .ok [{ Type' := mt, Charset := (paramGet ps ("charset".toList)).getD [],
             Data := body, Headers := hmapSetAll ph [] }] := by
  rw [show parseBody ct body ph
      = parseBodyStep (parseBodyF (linesOf body).length) ct body ph from rfl]
  unfold parseBodyStep
  rw [hmt]
  dsimp only
  rw [hbnd]
  dsimp only
  rw [hpre]
  rw [mailReadHeaders_eq_nil]
  rfl

/-- C8 amended witness: a concrete leaf with one inherited header. -/
theorem C8_leaf_headers_inherited_amended_witness :
    parseMediaType ("text/plain".toList) = .ok ("text/plain".toList, []) ∧
      parseBody ("text/plain".toList) bodyHdrClash phHdrClash =
        .ok [{ Type' := "text/plain".toList, Charset := [],
               Data := bodyHdrClash, Headers := hmapSetAll phHdrClash [] }] :=
  ⟨by decide,
    C8_leaf_headers_inherited_amended ("text/plain".toList) bodyHdrClash phHdrClash
      ("text/plain".toList) [] (by decide) (by decide) (by decide)⟩

/-- C10: in the decomposition loop, when the recursive decomposition of a
segment (with content-type value `ctv`) fails, the error is not
propagated: the segment is emitted as a single raw Part — type `ctv`,
charset the `charset=` regex capture from `ctv` (`UTF-8` when the pattern
finds nothing), the raw segment data and its headers — and the loop
continues with the following segments. -/
theorem C10_recursive_failure_fallback
    (rec : Bytes → Bytes → HMap → Except Bytes (List Part))
    (s : Seg) (rest : List Seg) (ctv e : Bytes) (vs : List Bytes)
    (hct : mapGet s.headers ("Content-Type".toList) = ctv :: vs)
    (herr : rec ctv s.data s.headers = .error e) :
    segsRunWith rec (s :: rest) =
      ({ Type' := ctv,
         Charset := (charsetCapture ctv).getD ("UTF-8".toList),
         Data := s.data, Headers := s.headers } : Part) :: segsRunWith rec rest := by
  show (match mapGet s.headers ("Content-Type".toList) with
      | [] => []
      | ctv :: _ =>
        match rec ctv s.data s.headers with
        | .ok subs => subs
        | .error _ => [fallbackPart ctv s]) ++ segsRunWith rec rest = _
  rw [hct]
  dsimp only
  rw [herr]
  dsimp only
  unfold fallbackPart
  cases hcc : charsetCapture ctv <;> rfl

/-- C10 witness: a segment whose content type is multipart without a
boundary fails recursive decomposition and is emitted raw with the
default `UTF-8` charset, before a successfully decomposed plain segment. -/
theorem C10_recursive_failure_fallback_witness :
    mapGet segBadInner.headers ("Content-Type".toList) =
        ["multipart/alternative".toList] ∧
      parseBodyF 1 ("multipart/alternative".toList) segBadInner.data segBadInner.headers =
        .error ("multipart specified without boundary".toList) ∧
      segsRunWith (parseBodyF 1) (segBadInner :: [segPlain]) =
        ({ Type' := "multipart/alternative".toList,
           Charset := (charsetCapture ("multipart/alternative".toList)).getD ("UTF-8".toList),
           Data := segBadInner.data, Headers := segBadInner.headers } : Part)
          :: segsRunWith (parseBodyF 1) [segPlain] :=
  ⟨by decide, by decide,
    C10_recursive_failure_fallback (parseBodyF 1) segBadInner [segPlain]
      ("multipart/alternative".toList) ("multipart specified without boundary".toList) []
      (by decide) (by decide)⟩

/-! ## String lemmas for the nested-multipart induction -/

/-- One step of `splitOnCharB` on a cons cell. -/
theorem splitOnCharB_cons (sep c : Char) (t : Bytes) :
    splitOnCharB sep (c :: t) =
      if c = sep then [] :: splitOnCharB sep t
      else
        match splitOnCharB sep t with
        | [] => [[c]]
        | h :: t' => (c :: h) :: t' := rfl

/-- Splitting never yields an empty chunk list. -/
theorem splitOnCharB_ne_nil (sep : Char) (s : Bytes) : splitOnCharB sep s ≠ [] := by
  cases s with
  | nil => simp [splitOnCharB]
  | cons c t =>
    rw [splitOnCharB_cons]
    by_cases hc : c = sep
    · rw [if_pos hc]
      exact List.cons_ne_nil _ _
    · rw [if_neg hc]
      cases splitOnCharB sep t <;> exact List.cons_ne_nil _ _

/-- Splitting distributes over an explicit separator occurrence. -/
theorem splitOnCharB_append_sep (sep : Char) (A B : Bytes) :
    splitOnCharB sep (A ++ sep :: B) = splitOnCharB sep A ++ splitOnCharB sep B := by
  induction A with
  | nil =>
    rw [List.nil_append, splitOnCharB_cons, if_pos rfl]
    rfl
  | cons c A' ih =>
    rw [List.cons_append, splitOnCharB_cons, splitOnCharB_cons sep c A', ih]
    by_cases hc : c = sep
    · rw [if_pos hc, if_pos hc]
      rfl
    · rw [if_neg hc, if_neg hc]
      cases hs : splitOnCharB sep A' with
      | nil => exact absurd hs (splitOnCharB_ne_nil _ _)
      | cons h0 t0 => rfl

/-- A chunk without the separator splits into itself. -/
theorem splitOnCharB_no_sep (sep : Char) (A : Bytes) (h : ∀ c ∈ A, c ≠ sep) :
    splitOnCharB sep A = [A] := by
  induction A with
  | nil => rfl
  | cons c A' ih =>
    rw [splitOnCharB_cons, if_neg (h c (List.mem_cons_self c A'))]
    rw [ih fun c hc => h c (List.mem_cons_of_mem _ hc)]

/-- Joining the split chunks with the separator restores the string. -/
theorem joinWithChar_splitOnCharB (sep : Char) (s : Bytes) :
    joinWithChar sep (splitOnCharB sep s) = s := by
  induction s with
  | nil => rfl
  | cons c t ih =>
    rw [splitOnCharB_cons]
    by_cases hc : c = sep
    · rw [if_pos hc]
      cases hs : splitOnCharB sep t with
      | nil => exact absurd hs (splitOnCharB_ne_nil _ _)
      | cons h0 t0 =>
        show joinWithChar sep ([] :: h0 :: t0) = c :: t
        rw [show joinWithChar sep ([] :: h0 :: t0) = [] ++ sep :: joinWithChar sep (h0 :: t0)
          from rfl]
        rw [← hs, ih, hc]
        rfl
    · rw [if_neg hc]
      cases hs : splitOnCharB sep t with
      | nil => exact absurd hs (splitOnCharB_ne_nil _ _)
      | cons h0 t0 =>
        rw [hs] at ih
        cases t0 with
        | nil =>
          show (c :: h0) = c :: t
          rw [show joinWithChar sep [h0] = h0 from rfl] at ih
          rw [ih]
        | cons h1 t1 =>
          show (c :: h0) ++ sep :: joinWithChar sep (h1 :: t1) = c :: t
          rw [show joinWithChar sep (h0 :: h1 :: t1)
              = h0 ++ sep :: joinWithChar sep (h1 :: t1) from rfl] at ih
          rw [List.cons_append, ih]

/-- `takeWhile` stops exactly at the first failing element after a run of
passing ones. -/
theorem takeWhile_append_stop (p : Char → Bool) (A : Bytes) (b : Char) (B : Bytes)
    (hA : ∀ c ∈ A, p c = true) (hb : p b = false) :
    (A ++ b :: B).takeWhile p = A := by
  induction A with
  | nil => simp [List.takeWhile, hb]
  | cons c A' ih =>
    rw [List.cons_append, List.takeWhile_cons, hA c (List.mem_cons_self c A'), if_pos rfl]
    rw [ih fun c hc => hA c (List.mem_cons_of_mem _ hc)]

/-- `dropWhile` drops exactly the passing run. -/
theorem dropWhile_append_stop (p : Char → Bool) (A : Bytes) (b : Char) (B : Bytes)
    (hA : ∀ c ∈ A, p c = true) (hb : p b = false) :
    (A ++ b :: B).dropWhile p = b :: B := by
  induction A with
  | nil => simp [List.dropWhile, hb]
  | cons c A' ih =>
    rw [List.cons_append, List.dropWhile_cons, hA c (List.mem_cons_self c A'), if_pos rfl]
    exact ih fun c hc => hA c (List.mem_cons_of_mem _ hc)

/-- `contains` of an extension on the left. -/
theorem contains_append_left (A B : Bytes) (c : Char) (h : A.contains c = true) :
    (A ++ B).contains c = true := by
  induction A with
  | nil => simp [List.contains] at h
  | cons a A' ih =>
    rw [List.cons_append]
    simp only [List.contains_cons] at h ⊢
    cases hq : (c == a) with
    | true => simp [hq]
    | false =>
      simp only [hq, Bool.false_or] at h ⊢
      exact ih h

/-- A leading space is dropped by trimming. -/
theorem trimSpaceB_cons_space (l : Bytes) : trimSpaceB (' ' :: l) = trimSpaceB l := by
  unfold trimSpaceB
  rw [List.dropWhile_cons]
  rw [show isSpaceB ' ' = true from rfl, if_pos rfl]

/-- A string whose first and last characters are not whitespace trims to
itself. -/
theorem trimSpaceB_eq_self (l : Bytes)
    (h1 : ∀ c, l.head? = some c → isSpaceB c = false)
    (h2 : ∀ c, l.getLast? = some c → isSpaceB c = false) : trimSpaceB l = l := by
  unfold trimSpaceB
  cases l with
  | nil => rfl
  | cons a t =>
    rw [List.dropWhile_cons, h1 a rfl, if_neg (by simp)]
    cases hr : (a :: t).reverse with
    | nil => simp at hr
    | cons b rt =>
      have hb : (a :: t).getLast? = some b := by
        rw [← List.head?_reverse, hr]
        rfl
      rw [List.dropWhile_cons, h2 b hb, if_neg (by simp)]
      rw [← hr, List.reverse_reverse]

/-- A line not ending in `\r` is unchanged by `stripCr`. -/
theorem stripCr_eq_self (l : Bytes) (h : ∀ c, l.getLast? = some c → c ≠ '\r') :
    stripCr l = l := by
  unfold stripCr trimSuffixB
  rw [if_neg]
  intro hsuf
  rw [show (List.isSuffixOf ['\r'] l = true) = (List.isPrefixOf ['\r'] l.reverse = true)
    from rfl] at hsuf
  cases hr : l.reverse with
  | nil => rw [hr] at hsuf; exact absurd hsuf (by decide)
  | cons b rt =>
    rw [hr] at hsuf
    have hb : l.getLast? = some b := by
      rw [← List.head?_reverse, hr]
      rfl
    have : ('\r' == b) = true := by
      revert hsuf
      unfold List.isPrefixOf
      cases ('\r' == b) <;> simp
    exact h b hb (eq_of_beq this).symm

/-- `isPrefixOf` is reflexive. -/
theorem isPrefixOf_self (l : Bytes) : l.isPrefixOf l = true := by
  induction l with
  | nil => rfl
  | cons c t ih =>
    show ((c == c) && t.isPrefixOf t) = true
    rw [ih]
    simp

/-- A strictly longer list is never a prefix. -/
theorem append_cons_not_prefixOf (l : Bytes) (d : Char) (t : Bytes) :
    (l ++ d :: t).isPrefixOf l = false := by
  induction l with
  | nil => rfl
  | cons c l' ih =>
    show ((c == c) && (l' ++ d :: t).isPrefixOf l') = false
    rw [ih]
    simp

/-- A run of `a` copies of `c` followed by anything is no prefix of a run
of fewer than `a` copies of `c`. -/
theorem replicate_append_not_prefix_replicate (c : Char) (s : Bytes) :
    ∀ a b, b < a → (List.replicate a c ++ s).isPrefixOf (List.replicate b c) = false := by
  intro a
  induction a with
  | zero => intro b hb; exact absurd hb (Nat.not_lt_zero b)
  | succ a' ih =>
    intro b hb
    cases b with
    | zero => rfl
    | succ b' =>
      show ((c == c) && (List.replicate a' c ++ s).isPrefixOf (List.replicate b' c)) = false
      rw [ih b' (Nat.lt_of_succ_lt_succ hb)]
      simp

/-- A run of `a` copies of `c` followed by anything is no prefix of a run
of fewer than `a` copies of `c` followed by a different character. -/
theorem replicate_append_not_prefix_replicate_append (c d : Char) (hcd : c ≠ d) (s t : Bytes) :
    ∀ a b, b < a →
      (List.replicate a c ++ s).isPrefixOf (List.replicate b c ++ d :: t) = false := by
  intro a
  induction a with
  | zero => intro b hb; exact absurd hb (Nat.not_lt_zero b)
  | succ a' ih =>
    intro b hb
    cases b with
    | zero =>
      show ((c == d) && _) = false
      rw [beq_false_of_ne hcd]
      simp
    | succ b' =>
      show ((c == c) && (List.replicate a' c ++ s).isPrefixOf (List.replicate b' c ++ d :: t))
          = false
      rw [ih b' (Nat.lt_of_succ_lt_succ hb)]
      simp

/-- Every character of a level boundary is `b`. -/
theorem mem_bndN {k : Nat} {c : Char} (h : c ∈ bndN k) : c = 'b' :=
  List.eq_of_mem_replicate h

/-- The level boundary ends in `b`. -/
theorem bndN_getLast? (k : Nat) : (bndN k).getLast? = some 'b' := by
  unfold bndN
  rw [show List.replicate (k + 1) 'b' = List.replicate k 'b' ++ ['b']
    from by rw [← List.replicate_succ' k 'b']]
  exact List.getLast?_concat _

/-- Boundaries are never empty. -/
theorem bndN_ne_nil (k : Nat) : bndN k ≠ [] := by
  simp [bndN]

/-- No newline occurs in a boundary. -/
theorem no_nl_bndN (k : Nat) : ∀ c ∈ bndN k, c ≠ '\n' := by
  intro c hc
  rw [mem_bndN hc]
  decide

/-- No newline occurs in a level content type. -/
theorem no_nl_ctN (k : Nat) : ∀ c ∈ ctN k, c ≠ '\n' := by
  cases k with
  | zero =>
    intro c hc
    exact (by decide : ∀ c ∈ ("t/p; charset=u".toList : Bytes), c ≠ '\n') c hc
  | succ k' =>
    intro c hc
    rcases List.mem_append.mp hc with h | h
    · exact (by decide : ∀ c ∈ ("x/m; boundary=".toList : Bytes), c ≠ '\n') c h
    · rw [mem_bndN h]; decide

/-- No newline occurs in a delimiter line. -/
theorem no_nl_dlN (k : Nat) : ∀ c ∈ dlN k, c ≠ '\n' := by
  intro c hc
  rcases List.mem_cons.mp hc with rfl | hc
  · decide
  rcases List.mem_cons.mp hc with rfl | hc
  · decide
  rw [mem_bndN hc]
  decide

/-- No newline occurs in a closing delimiter line. -/
theorem no_nl_clN (k : Nat) : ∀ c ∈ clN k, c ≠ '\n' := by
  intro c hc
  rcases List.mem_cons.mp hc with rfl | hc
  · decide
  rcases List.mem_cons.mp hc with rfl | hc
  · decide
  rcases List.mem_append.mp hc with h | h
  · rw [mem_bndN h]; decide
  · rcases List.mem_cons.mp h with rfl | h
    · decide
    rcases List.mem_cons.mp h with rfl | h
    · decide
    · exact absurd h (List.not_mem_nil c)

/-- No newline occurs in a segment header line. -/
theorem no_nl_ctLineN (k : Nat) : ∀ c ∈ ctLineN k, c ≠ '\n' := by
  intro c hc
  rcases List.mem_append.mp hc with h | h
  · exact (by decide : ∀ c ∈ ("Content-Type: ".toList : Bytes), c ≠ '\n') c h
  · exact no_nl_ctN k c h

/-- The line structure of a nested body: delimiter line, header line,
blank line, the inner body's lines, closing delimiter line. -/
theorem linesOf_bodyN_succ (k : Nat) :
    linesOf (bodyN (k + 1)) = dlN k :: ctLineN k :: [] :: (linesOf (bodyN k) ++ [clN k]) := by
  show splitOnCharB '\n'
      (dlN k ++ '\n' :: (ctLineN k ++ '\n' :: '\n' :: (bodyN k ++ '\n' :: clN k)))
    = _
  rw [splitOnCharB_append_sep '\n' (dlN k), splitOnCharB_no_sep '\n' (dlN k) (no_nl_dlN k)]
  rw [splitOnCharB_append_sep '\n' (ctLineN k),
    splitOnCharB_no_sep '\n' (ctLineN k) (no_nl_ctLineN k)]
  rw [splitOnCharB_cons, if_pos rfl]
  rw [splitOnCharB_append_sep '\n' (bodyN k), splitOnCharB_no_sep '\n' (clN k) (no_nl_clN k)]
  rfl

/-- Line count of the nested bodies. -/
theorem linesOf_bodyN_length (k : Nat) : (linesOf (bodyN k)).length = 4 * k + 1 := by
  induction k with
  | zero => rfl
  | succ k' ih =>
    rw [linesOf_bodyN_succ]
    simp only [List.length_cons, List.length_append, List.length_cons, List.length_nil, ih]
    omega

/-- A bare longer run is no prefix of a shorter one. -/
theorem replicate_not_prefix_replicate (c : Char) (a b : Nat) (h : b < a) :
    (List.replicate a c).isPrefixOf (List.replicate b c) = false := by
  rw [← List.append_nil (List.replicate a c)]
  exact replicate_append_not_prefix_replicate c [] a b h

/-- A bare longer run is no prefix of a shorter one with a different
follower. -/
theorem replicate_not_prefix_replicate_append (c d : Char) (hcd : c ≠ d) (t : Bytes)
    (a b : Nat) (h : b < a) :
    (List.replicate a c).isPrefixOf (List.replicate b c ++ d :: t) = false := by
  rw [← List.append_nil (List.replicate a c)]
  exact replicate_append_not_prefix_replicate_append c d hcd [] t a b h

/-- Peeling one equal character off a prefix check. -/
theorem isPrefixOf_cons_same (c : Char) (X Y : Bytes) :
    (c :: X).isPrefixOf (c :: Y) = X.isPrefixOf Y := by
  show ((c == c) && X.isPrefixOf Y) = X.isPrefixOf Y
  simp

/-- The delimiter line ends in `b`. -/
theorem dlN_getLast? (k : Nat) : (dlN k).getLast? = some 'b' := by
  show (['-', '-'] ++ bndN k).getLast? = some 'b'
  rw [List.getLast?_append_of_ne_nil _ (bndN_ne_nil k), bndN_getLast?]

/-- The closing delimiter line ends in `-`. -/
theorem clN_getLast? (k : Nat) : (clN k).getLast? = some '-' := by
  show (['-', '-'] ++ (bndN k ++ ['-', '-'])).getLast? = some '-'
  rw [List.getLast?_append_of_ne_nil _ (by simp),
    List.getLast?_append_of_ne_nil _ (by simp)]
  rfl

/-- Level content types are never empty. -/
theorem ctN_ne_nil (k : Nat) : ctN k ≠ [] := by
  cases k with
  | zero => decide
  | succ k' => exact List.cons_ne_nil _ _

/-- The level content type ends in `u` or `b`. -/
theorem ctN_getLast? (k : Nat) :
    (ctN k).getLast? = some 'u' ∨ (ctN k).getLast? = some 'b' := by
  cases k with
  | zero => exact Or.inl (by decide)
  | succ k' =>
    refine Or.inr ?_
    rw [show ctN (k' + 1) = "x/m; boundary=".toList ++ bndN k' from rfl,
      List.getLast?_append_of_ne_nil _ (bndN_ne_nil k'), bndN_getLast?]

/-- `stripCr` keeps the delimiter line. -/
theorem stripCr_dlN (k : Nat) : stripCr (dlN k) = dlN k := by
  refine stripCr_eq_self _ fun c hc => ?_
  rw [dlN_getLast?] at hc
  cases hc
  decide

/-- `stripCr` keeps the closing delimiter line. -/
theorem stripCr_clN (k : Nat) : stripCr (clN k) = clN k := by
  refine stripCr_eq_self _ fun c hc => ?_
  rw [clN_getLast?] at hc
  cases hc
  decide

/-- `stripCr` keeps the header line. -/
theorem stripCr_ctLineN (k : Nat) : stripCr (ctLineN k) = ctLineN k := by
  refine stripCr_eq_self _ fun c hc => ?_
  rw [show ctLineN k = "Content-Type: ".toList ++ ctN k from rfl] at hc
  rw [List.getLast?_append_of_ne_nil _ (ctN_ne_nil k)] at hc
  rcases ctN_getLast? k with h | h <;> rw [h] at hc <;> cases hc <;> decide

/-- The level boundary recognizes its own delimiter line. -/
theorem isDelimLine_dlN_self (k : Nat) : isDelimLine (bndN k) (dlN k) = true := by
  unfold isDelimLine
  rw [stripCr_dlN]
  dsimp only
  rw [show ('-' :: '-' :: bndN k) = dlN k from rfl, isPrefixOf_self]
  rw [show (bndN k).length + 2 = (dlN k).length from by simp [dlN, bndN]]
  rw [List.drop_length]
  rfl

/-- The level boundary does not read its delimiter line as closing. -/
theorem isCloseLine_dlN_self (k : Nat) : isCloseLine (bndN k) (dlN k) = false := by
  unfold isCloseLine
  rw [stripCr_dlN]
  dsimp only
  rw [show ('-' :: '-' :: (bndN k ++ ['-', '-'])).isPrefixOf (dlN k)
      = (bndN k ++ '-' :: ['-']).isPrefixOf (bndN k) from by
    rw [show dlN k = '-' :: '-' :: bndN k from rfl,
      isPrefixOf_cons_same, isPrefixOf_cons_same]]
  rw [append_cons_not_prefixOf]
  rfl

/-- The level boundary recognizes its closing delimiter line. -/
theorem isCloseLine_clN_self (k : Nat) : isCloseLine (bndN k) (clN k) = true := by
  unfold isCloseLine
  rw [stripCr_clN]
  dsimp only
  rw [show ('-' :: '-' :: (bndN k ++ ['-', '-'])) = clN k from rfl, isPrefixOf_self]
  rw [show (bndN k).length + 4 = (clN k).length from by simp [clN, bndN]]
  rw [List.drop_length]
  rfl

/-- A deeper boundary does not read a shallower delimiter line as its
delimiter. -/
theorem isDelimLine_deep_dlN (k m : Nat) (h : k < m) :
    isDelimLine (bndN m) (dlN k) = false := by
  unfold isDelimLine
  rw [stripCr_dlN]
  dsimp only
  rw [show ('-' :: '-' :: bndN m).isPrefixOf (dlN k)
      = (bndN m).isPrefixOf (bndN k) from by
    rw [show dlN k = '-' :: '-' :: bndN k from rfl,
      isPrefixOf_cons_same, isPrefixOf_cons_same]]
  unfold bndN
  rw [replicate_not_prefix_replicate 'b' (m + 1) (k + 1) (Nat.succ_lt_succ h)]
  rfl

/-- A deeper boundary does not read a shallower delimiter line as
closing. -/
theorem isCloseLine_deep_dlN (k m : Nat) (h : k < m) :
    isCloseLine (bndN m) (dlN k) = false := by
  unfold isCloseLine
  rw [stripCr_dlN]
  dsimp only
  rw [show ('-' :: '-' :: (bndN m ++ ['-', '-'])).isPrefixOf (dlN k)
      = (bndN m ++ ['-', '-']).isPrefixOf (bndN k) from by
    rw [show dlN k = '-' :: '-' :: bndN k from rfl,
      isPrefixOf_cons_same, isPrefixOf_cons_same]]
  unfold bndN
  rw [replicate_append_not_prefix_replicate 'b' ['-', '-'] (m + 1) (k + 1)
    (Nat.succ_lt_succ h)]
  rfl

/-- A deeper boundary does not read a shallower closing line as its
delimiter. -/
theorem isDelimLine_deep_clN (k m : Nat) (h : k < m) :
    isDelimLine (bndN m) (clN k) = false := by
  unfold isDelimLine
  rw [stripCr_clN]
  dsimp only
  rw [show ('-' :: '-' :: bndN m).isPrefixOf (clN k)
      = (bndN m).isPrefixOf (bndN k ++ '-' :: ['-']) from by
    rw [show clN k = '-' :: '-' :: (bndN k ++ '-' :: ['-']) from rfl,
      isPrefixOf_cons_same, isPrefixOf_cons_same]]
  unfold bndN
  rw [replicate_not_prefix_replicate_append 'b' '-' (by decide) ['-'] (m + 1) (k + 1)
    (Nat.succ_lt_succ h)]
  rfl

/-- A deeper boundary does not read a shallower closing line as closing. -/
theorem isCloseLine_deep_clN (k m : Nat) (h : k < m) :
    isCloseLine (bndN m) (clN k) = false := by
  unfold isCloseLine
  rw [stripCr_clN]
  dsimp only
  rw [show ('-' :: '-' :: (bndN m ++ ['-', '-'])).isPrefixOf (clN k)
      = (bndN m ++ ['-', '-']).isPrefixOf (bndN k ++ '-' :: ['-']) from by
    rw [show clN k = '-' :: '-' :: (bndN k ++ '-' :: ['-']) from rfl,
      isPrefixOf_cons_same, isPrefixOf_cons_same]]
  unfold bndN
  rw [replicate_append_not_prefix_replicate_append 'b' '-' (by decide) ['-', '-'] ['-']
    (m + 1) (k + 1) (Nat.succ_lt_succ h)]
  rfl

/-- No boundary reads the header line as a delimiter (it starts with
`C`). -/
theorem isDelimLine_ctLineN (b : Bytes) (k : Nat) : isDelimLine b (ctLineN k) = false := by
  unfold isDelimLine
  rw [stripCr_ctLineN]
  rfl

/-- No boundary reads the header line as closing. -/
theorem isCloseLine_ctLineN (b : Bytes) (k : Nat) : isCloseLine b (ctLineN k) = false := by
  unfold isCloseLine
  rw [stripCr_ctLineN]
  rfl

/-- Every line of a nested body at level `k` is invisible to the scanner
of any boundary at level `k` or deeper in the enclosing direction. -/
theorem bodyN_lines_not_delim (k : Nat) :
    ∀ l ∈ linesOf (bodyN k), ∀ m, k ≤ m →
      isCloseLine (bndN m) l = false ∧ isDelimLine (bndN m) l = false := by
  induction k with
  | zero =>
    intro l hl m _
    rw [show linesOf (bodyN 0) = [['d']] from rfl] at hl
    rcases List.mem_singleton.mp hl with rfl
    exact ⟨rfl, rfl⟩
  | succ k' ih =>
    intro l hl m hm
    have hk'm : k' < m := Nat.lt_of_succ_le hm
    rw [linesOf_bodyN_succ] at hl
    rcases List.mem_cons.mp hl with rfl | hl
    · exact ⟨isCloseLine_deep_dlN k' m hk'm, isDelimLine_deep_dlN k' m hk'm⟩
    rcases List.mem_cons.mp hl with rfl | hl
    · exact ⟨isCloseLine_ctLineN _ _, isDelimLine_ctLineN _ _⟩
    rcases List.mem_cons.mp hl with rfl | hl
    · exact ⟨rfl, rfl⟩
    rcases List.mem_append.mp hl with hl | hl
    · exact ih l hl m (Nat.le_trans (Nat.le_succ k') hm)
    · rcases List.mem_singleton.mp hl with rfl
      exact ⟨isCloseLine_deep_clN k' m hk'm, isDelimLine_deep_clN k' m hk'm⟩

/-- `collectData` collects all non-delimiter lines and finishes at the
closing delimiter. -/
theorem collectData_all_skip (b : Bytes) (L : List Bytes) (last : Bytes)
    (hL : ∀ l ∈ L, isCloseLine b l = false ∧ isDelimLine b l = false)
    (hlast : isCloseLine b last = true) :
    collectData b (L ++ [last]) = (L, [], true) := by
  induction L with
  | nil =>
    show collectData b (last :: []) = ([], [], true)
    unfold collectData
    rw [if_pos hlast]
  | cons x L' ih =>
    show collectData b (x :: (L' ++ [last])) = (x :: L', [], true)
    unfold collectData
    rw [if_neg (by simp [(hL x (List.mem_cons_self x L')).1]),
      if_neg (by simp [(hL x (List.mem_cons_self x L')).2])]
    rw [ih fun l hl => hL l (List.mem_cons_of_mem x hl)]

/-- The level content type has no surrounding whitespace. -/
theorem trimSpaceB_ctN (k : Nat) : trimSpaceB (ctN k) = ctN k := by
  refine trimSpaceB_eq_self _ (fun c hc => ?_) (fun c hc => ?_)
  · cases k with
    | zero =>
      rw [show (ctN 0).head? = some 't' from rfl] at hc
      cases hc
      decide
    | succ k' =>
      rw [show (ctN (k' + 1)).head? = some 'x' from rfl] at hc
      cases hc
      decide
  · rcases ctN_getLast? k with h | h <;> rw [h] at hc <;> cases hc <;> decide

/-- An explicit element inside an append is found by `contains`. -/
theorem contains_append_cons (A : Bytes) (b : Char) (B : Bytes) :
    (A ++ b :: B).contains b = true := by
  induction A with
  | nil => simp [List.contains_cons]
  | cons a A' ih =>
    rw [List.cons_append]
    simp only [List.contains_cons, ih, Bool.or_true]

/-- Reading the nested segment's header block: one `Content-Type` header,
then the blank separator. -/
theorem readHdrLines_ctLine (k : Nat) (R : List Bytes) :
    readHdrLines (ctLineN k :: [] :: R) []
      = ([("Content-Type".toList, [ctN k])], R) := by
  unfold readHdrLines
  rw [stripCr_ctLineN]
  rw [if_neg (by simp [ctLineN])]
  rw [if_pos (by
    show (ctLineN k).contains ':' = true
    rw [show ctLineN k = "Content-Type".toList ++ ':' :: (' ' :: ctN k) from rfl]
    exact contains_append_cons _ _ _)]
  rw [show ctLineN k = "Content-Type".toList ++ ':' :: (' ' :: ctN k) from rfl]
  rw [takeWhile_append_stop _ _ _ _ (by decide) (by decide)]
  rw [dropWhile_append_stop _ _ _ _ (by decide) (by decide)]
  rw [show canonKey ("Content-Type".toList) = "Content-Type".toList from by decide]
  rw [show (((':' :: (' ' :: ctN k)) : Bytes).drop 1) = ' ' :: ctN k from rfl]
  rw [trimSpaceB_cons_space, trimSpaceB_ctN]
  dsimp only
  rw [show mapAppendVal [] ("Content-Type".toList) (ctN k)
      = [("Content-Type".toList, [ctN k])] from rfl]
  unfold readHdrLines
  rw [show stripCr [] = ([] : Bytes) from rfl]
  rw [if_pos rfl]

/-- One `NextPart` step of the scanner at positive fuel. -/
theorem readPartsF_succ (b : Bytes) (fuel : Nat) (ls : List Bytes) :
    readPartsF b (fuel + 1) ls =
      (⟨(readHdrLines ls []).1,
        joinWithChar '\n' (collectData b (readHdrLines ls []).2).1⟩ : Seg)
        :: (if (collectData b (readHdrLines ls []).2).2.2 then []
            else readPartsF b fuel (collectData b (readHdrLines ls []).2).2.1) := rfl

/-- Scanning one level of the nested body yields exactly its inner
segment. -/
theorem scanSegs_bodyN (k : Nat) :
    scanSegs (bndN k) (linesOf (bodyN (k + 1)))
      = [⟨[("Content-Type".toList, [ctN k])], bodyN k⟩] := by
  rw [linesOf_bodyN_succ]
  unfold scanSegs
  rw [if_neg (by simp [isCloseLine_dlN_self k])]
  rw [if_pos (by simp [isDelimLine_dlN_self k])]
  rw [readPartsF_succ]
  rw [readHdrLines_ctLine]
  dsimp only
  rw [collectData_all_skip (bndN k) (linesOf (bodyN k)) (clN k)
    (fun l hl => bodyN_lines_not_delim k l hl k (Nat.le_refl k))
    (isCloseLine_clN_self k)]
  dsimp only
  rw [if_pos rfl]
  rw [show linesOf (bodyN k) = splitOnCharB '\n' (bodyN k) from rfl,
    joinWithChar_splitOnCharB]

/-- The boundary value has no surrounding whitespace. -/
theorem trimSpaceB_bndN (k : Nat) : trimSpaceB (bndN k) = bndN k := by
  refine trimSpaceB_eq_self _ (fun c hc => ?_) (fun c hc => ?_)
  · rw [show (bndN k).head? = some 'b' from by
      rw [show bndN k = 'b' :: List.replicate k 'b' from rfl]
      rfl] at hc
    cases hc
    decide
  · rw [bndN_getLast?] at hc
    cases hc
    decide

/-- Parsing a boundary-carrying nested content type. -/
theorem parseMediaType_ctN_succ (k : Nat) :
    parseMediaType (ctN (k + 1)) = .ok ("x/m".toList, [("boundary".toList, bndN k)]) := by
  unfold parseMediaType
  rw [show ctN (k + 1)
      = "x/m".toList ++ ';' :: (' ' :: ("boundary=".toList ++ bndN k)) from rfl]
  rw [splitOnCharB_append_sep ';' ("x/m".toList)]
  rw [splitOnCharB_no_sep ';' ("x/m".toList) (by decide)]
  rw [splitOnCharB_no_sep ';' (' ' :: ("boundary=".toList ++ bndN k)) (by
    intro c hc
    rcases List.mem_cons.mp hc with rfl | hc
    · decide
    rcases List.mem_append.mp hc with h | h
    · exact (by decide : ∀ c ∈ ("boundary=".toList : Bytes), c ≠ ';') c h
    · rw [mem_bndN h]; decide)]
  dsimp only [List.cons_append, List.nil_append]
  rw [show toLowerB (trimSpaceB ("x/m".toList)) = "x/m".toList from by decide]
  rw [if_neg (by decide)]
  rw [if_neg (by decide)]
  unfold mediaParams
  rw [trimSpaceB_cons_space]
  rw [show ("boundary=".toList ++ bndN k) = "boundary".toList ++ '=' :: bndN k from rfl]
  have htrim : trimSpaceB ("boundary".toList ++ '=' :: bndN k)
      = "boundary".toList ++ '=' :: bndN k := by
    refine trimSpaceB_eq_self _ (fun c hc => ?_) (fun c hc => ?_)
    · rw [show (("boundary".toList ++ '=' :: bndN k) : Bytes).head? = some 'b' from rfl] at hc
      cases hc
      decide
    · rw [List.getLast?_append_of_ne_nil _ (List.cons_ne_nil _ _)] at hc
      rw [show (('=' :: bndN k) : Bytes) = ['='] ++ bndN k from rfl,
        List.getLast?_append_of_ne_nil _ (bndN_ne_nil k), bndN_getLast?] at hc
      cases hc
      decide
  rw [htrim]
  rw [if_neg (by simp)]
  rw [takeWhile_append_stop _ _ _ _ (by decide) (by decide)]
  rw [dropWhile_append_stop _ _ _ _ (by decide) (by decide)]
  rw [show toLowerB (trimSpaceB ("boundary".toList)) = "boundary".toList from by decide]
  rw [if_neg (by
    rw [contains_append_cons]
    simp)]
  rw [if_neg (by decide)]
  rw [show ((('=' :: bndN k) : Bytes).drop 1) = bndN k from rfl]
  rw [show paramValue (bndN k) = trimSpaceB (bndN k) from by
    rw [show bndN k = 'b' :: List.replicate k 'b' from rfl]
    rfl]
  rw [trimSpaceB_bndN]
  rfl

/-- One step of the segment loop. -/
theorem segsRunWith_cons (rec : Bytes → Bytes → HMap → Except Bytes (List Part))
    (s : Seg) (rest : List Seg) :
    segsRunWith rec (s :: rest) =
      (match mapGet s.headers ("Content-Type".toList) with
       | [] => []
       | ctv :: _ =>
         match rec ctv s.data s.headers with
         | .ok subs => subs
         | .error _ => [fallbackPart ctv s]) ++ segsRunWith rec rest := rfl

/-- Decomposing any level of the nested family at sufficient fuel
succeeds and yields the single innermost leaf part — the recursion depth
grows with the level and is never cut off by anything in the code. -/
theorem parseBodyF_bodyN (k : Nat) :
    ∀ fuel ph, k < fuel →
      parseBodyF fuel (ctN k) (bodyN k) ph = .ok [nestedResult k ph] := by
  induction k with
  | zero =>
    intro fuel ph hf
    cases fuel with
    | zero => exact absurd hf (by omega)
    | succ f =>
      show parseBodyStep (parseBodyF f) (ctN 0) (bodyN 0) ph = _
      unfold parseBodyStep
      rw [show parseMediaType (ctN 0)
          = .ok ("t/p".toList, [("charset".toList, "u".toList)]) from by decide]
      dsimp only
      rw [show paramGet [("charset".toList, "u".toList)] ("boundary".toList) = none
        from by decide]
      dsimp only
      rw [if_neg (by decide)]
      rw [mailReadHeaders_eq_nil]
      rfl
  | succ k' ih =>
    intro fuel ph hf
    cases fuel with
    | zero => exact absurd hf (by omega)
    | succ f =>
      show parseBodyStep (parseBodyF f) (ctN (k' + 1)) (bodyN (k' + 1)) ph = _
      unfold parseBodyStep
      rw [parseMediaType_ctN_succ k']
      dsimp only
      rw [show paramGet [("boundary".toList, bndN k')] ("boundary".toList)
          = some (bndN k') from rfl]
      dsimp only
      rw [scanSegs_bodyN k']
      rw [segsRunWith_cons]
      rw [show mapGet [("Content-Type".toList, [ctN k'])] ("Content-Type".toList)
          = [ctN k'] from by
        unfold mapGet
        rw [if_pos rfl]]
      dsimp only
      rw [ih f [("Content-Type".toList, [ctN k'])] (Nat.lt_of_succ_lt_succ hf)]
      dsimp only
      rw [show segsRunWith (parseBodyF f) [] = [] from rfl, List.append_nil]
      cases k' with
      | zero => rfl
      | succ k'' => rfl

/-- Decomposing any level of the nested family through `parseBody`
succeeds: the embedding fuel supplied by `parseBody` (its line count plus
one) always exceeds the nesting depth. -/
theorem nested_parse_ok (n : Nat) :
    parseBody (ctN n) (bodyN n) [] = .ok [nestedResult n []] := by
  unfold parseBody
  refine parseBodyF_bodyN n ((linesOf (bodyN n)).length + 1) [] ?_
  rw [linesOf_bodyN_length]
  omega

/-- C3 amended: multipart decomposition imposes NO recursion-depth cap
and has no recursion-limit error: for every nesting depth `n`, the
`n`-level nested multipart body decomposes successfully (recursing `n`
levels deep) instead of failing fast beyond a fixed cap. -/
theorem C3_unbounded_recursion_amended (n : Nat) :
    parseBody (ctN n) (bodyN n) [] = .ok [nestedResult n []] :=
  nested_parse_ok n

/-- C3 counterexample: the concrete input nested 66 levels deep — beyond
the fixed cap of 64 the spec proposes — is decomposed successfully down
to its innermost leaf, with no recursion-limit error of any kind. -/
theorem C3_depth66_no_limit_cex :
    parseBody (ctN 66) (bodyN 66) [] = .ok [nestedLeaf nestedLeafHdrs] :=
  nested_parse_ok 66

end Eml
